import Mathlib

/-!
Verification of the SLBC Sanskrit binary codec

Shallow embedding of the `slbc-core` Rust crate and proofs about it.

Modelling conventions:
* A byte is a `Nat` (always `< 256` where it matters; the source's bit
  operations `>>`, `&`, `|`, `^` become `>>>`, `&&&`, `|||`, `^^^` on `Nat`).
* Rust `String`/`&str` values are modelled as `List Char` (the character
  sequence, i.e. what `String.data` holds in Lean).
* Rust `Result<T, String>` becomes `Except String T`; for the decoder,
  whose source can also panic on out-of-bounds slice indexing, the error
  type `DErr` has a dedicated `panicked` constructor that models a Rust
  panic (an abort, not a returned error).
* Source `while` loops over a cursor become fuel-indexed structural
  recursions.  The fuel is always called with `data.length + 1` and every
  loop iteration advances the cursor by at least one position, so the
  out-of-fuel branch (`DErr.fuel` / the `"out of fuel"` string) is
  unreachable on every actual call; lemmas carry the corresponding
  `data.length < fuel + i` bound.
-/

deriving instance DecidableEq for Except

namespace Slbc

/-! ## Byte constants (`types.rs`) -/

def META_START : Nat := 0x06

def META_END : Nat := 0x0E

def PHON_START : Nat := 0x16

def PHON_END : Nat := 0x1E

def PADA_START : Nat := 0x26

def PADA_END : Nat := 0x2E

def SANKHYA_START : Nat := 0x3E

def DANDA : Nat := 0x0F

def DOUBLE_DANDA : Nat := 0x17

def SPACE : Nat := 0x1F

def AVAGRAHA : Nat := 0x27

def NUM : Nat := 0x2F

def META_EXT : Nat := 0x37

def CHUNK_PHON : Nat := 0x01

def CHUNK_EOF : Nat := 0xFF

/-- Magic bytes `b"SLBC"`. -/
def MAGIC : List Nat := [0x53, 0x4C, 0x42, 0x43]

/-- Version quad `[0x00, 0x00, 0x00, 0x0A]`. -/
def VERSION : List Nat := [0x00, 0x00, 0x00, 0x0A]

def FLAG_HAS_LIPI : Nat := 0b10000000

def FLAG_HAS_META : Nat := 0b01000000

def FLAG_INTERLEAVED : Nat := 0b00100000

/-! ## Byte classification (`types.rs`) -/

/-- `is_svara`: bits `[7:6] ≠ 00`. -/
def isSvara (b : Nat) : Bool := b >>> 6 != 0

/-- `is_vyanjana`: bits `[7:6] = 00` and `COLUMN ∈ 0–4`. -/
def isVyanjana (b : Nat) : Bool := b >>> 6 == 0 && b &&& 0x07 ≤ 4

/-- `is_varga`: `PLACE ∈ 0–4` and `COLUMN ∈ 0–4`. -/
def isVarga (b : Nat) : Bool :=
  b >>> 6 == 0 && (b >>> 3) &&& 0x07 ≤ 4 && b &&& 0x07 ≤ 4

/-- `is_bhasha_control`: bits `[7:6] = 00`, `COLUMN = 6`. -/
def isBhashaControl (b : Nat) : Bool := b >>> 6 == 0 && b &&& 0x07 == 6

/-- `is_lipi_control`: bits `[7:6] = 00`, `COLUMN = 7`. -/
def isLipiControl (b : Nat) : Bool := b >>> 6 == 0 && b &&& 0x07 == 7

/-- A byte falling through every classification predicate ("reserved"). -/
def isReservedByte (b : Nat) : Bool :=
  !isSvara b && !isVyanjana b && !isBhashaControl b && !isLipiControl b

/-- `place`: PLACE field of a vyañjana byte. -/
def place (b : Nat) : Nat := (b >>> 3) &&& 0x07

/-- `column`: COLUMN field of a vyañjana byte. -/
def column (b : Nat) : Nat := b &&& 0x07

/-- `svara_q`: quantity field of a svara byte. -/
def svaraQ (b : Nat) : Nat := (b >>> 6) &&& 0x03

/-- `svara_a`: accent field of a svara byte. -/
def svaraA (b : Nat) : Nat := (b >>> 4) &&& 0x03

/-- `svara_s`: series field of a svara byte. -/
def svaraS (b : Nat) : Nat := (b >>> 2) &&& 0x03

/-- `svara_g`: grade field of a svara byte. -/
def svaraG (b : Nat) : Nat := b &&& 0x03

/-! ## ULEB128 (`container.rs`) -/

/-- `write_uleb128` (`container.rs`).  The source loop iterates once per
7-bit group of a `u64`, hence at most ten times; fuel 11 therefore covers
every value the source can receive. -/
def writeUleb128Aux : Nat → Nat → List Nat
  | 0, _ => []
  | fuel + 1, value =>
    let byte := value &&& 0x7F
    let value' := value >>> 7
    if value' = 0 then [byte] else (byte ||| 0x80) :: writeUleb128Aux fuel value'

def writeUleb128 (value : Nat) : List Nat := writeUleb128Aux 11 value

/-- The loop body of `read_uleb128`: iterating over `data` with the byte
index `i`, accumulated shift and result. -/
def readUleb128Go : List Nat → Nat → Nat → Nat → Except String (Nat × Nat)
  | [], _, _, _ => .error "truncated ULEB128"
  | byte :: rest, i, shift, result =>
    if i ≥ 5 then .error "ULEB128 exceeds 5 bytes (max u32)"
    else
      let result' := result ||| ((byte &&& 0x7F) <<< shift)
      if byte &&& 0x80 = 0 then
        if result' > 0xFFFFFFFF then .error "ULEB128 value exceeds u32 range"
        else .ok (result', i + 1)
      else readUleb128Go rest (i + 1) (shift + 7) result'

/-- `read_uleb128` (`container.rs`): returns `(value, bytes consumed)`. -/
def readUleb128 (data : List Nat) : Except String (Nat × Nat) :=
  readUleb128Go data 0 0 0

/-! ## Decoder error channel

The Rust decoder returns `Result<_, String>` but can also *panic* on an
out-of-bounds `data[i]`; `DErr.panicked` models that abort, `DErr.fuel`
is the unreachable out-of-fuel branch of the loop embeddings. -/

inductive DErr where
  | panicked : DErr
  | fuel : DErr
  | msg : String → DErr
  deriving DecidableEq, Repr

/-! ## Numeral codec (`numeral.rs`) -/

/-- The closed digit-word vocabulary `DIGIT_WORDS` (values 0–9).  The
source indexes a fixed 10-entry array; indices outside 0–9 (which would
panic in Rust) fall to `[]` and are never used. -/
def digitWord : Nat → List Nat
  | 0 => [0x29, 0x88, 0x1C, 0x31, 0x40] -- śūnya
  | 1 => [0x85, 0x00, 0x40]             -- eka
  | 2 => [0x1A, 0x32, 0x44]             -- dvi
  | 3 => [0x18, 0x33, 0x44]             -- tri
  | 4 => [0x08, 0x40, 0x18, 0x48, 0x33] -- catur
  | 5 => [0x20, 0x40, 0x0C, 0x08, 0x40] -- pañca
  | 6 => [0x2A, 0x40, 0x2A]             -- ṣaṣ
  | 7 => [0x2B, 0x40, 0x20, 0x18, 0x40] -- sapta
  | 8 => [0x40, 0x2A, 0x10, 0x40]       -- aṣṭa
  | 9 => [0x1C, 0x40, 0x32, 0x40]       -- nava
  | _ => []

/-- `c.to_digit(10)` for an ASCII digit character (the source `expect`s,
panicking on a non-digit; the encoder only reaches this on digit runs). -/
def charToDigit (c : Char) : Nat := c.toNat - 48

/-- `char::from_digit(d, 10)` for `d < 10`. -/
def digitChar (d : Nat) : Char := Char.ofNat (48 + d)

/-- `encode_numeral` (`numeral.rs`): the bytes appended to `out` for the
digit string `digits` — SAṄKHYĀ span (count, then digit-word padas in
reverse order) followed by the NUM glyph span. -/
def encodeNumeral (digits : List Char) : List Nat :=
  let ds := digits.map charToDigit
  SANKHYA_START :: writeUleb128 ds.length
    ++ (ds.reverse.foldr (fun d acc => PADA_START :: digitWord d ++ PADA_END :: acc) [])
    ++ NUM :: ds

/-- `lookup_digit_word` (`numeral.rs`). -/
def lookupDigitWord (padaBytes : List Nat) : Option Nat :=
  (List.range 10).findSome? fun d => if padaBytes = digitWord d then some d else none

/-- The digit-pada loop of `decode_sankhya`: reads `count` PADA_START …
PADA_END regions starting at byte index `i`, pushing matched digit values
onto `acc` in loop order.  Returns the collected digits and the final
index.  The source's `data[i]` at an out-of-bounds `i` is a Rust panic. -/
def sankhyaPadas (data : List Nat) : Nat → Nat → List Nat → Except DErr (List Nat × Nat)
  | 0, i, acc => .ok (acc, i)
  | count + 1, i, acc =>
    if i < data.length then
      if data.getD i 0 ≠ PADA_START then
        .error (.msg ("expected PADA_START at offset " ++ toString i))
      else
        let rem := data.drop (i + 1)
        let w := rem.takeWhile (fun x => x ≠ PADA_END)
        if w.length = rem.length then
          .error (.msg "unterminated digit-pada")
        else
          match lookupDigitWord w with
          | none => .error (.msg ("invalid digit-word at offset " ++ toString (i + 1)))
          | some d => sankhyaPadas data count (i + 1 + w.length + 1) (acc ++ [d])
    else .error .panicked

/-- `decode_sankhya` (`numeral.rs`): returns `(digits left-to-right,
bytes consumed)`. -/
def decodeSankhya (data : List Nat) (pos : Nat) : Except DErr (List Nat × Nat) :=
  if pos < data.length then
    if data.getD pos 0 ≠ SANKHYA_START then
      .error (.msg ("expected SAṄKHYĀ_START at offset " ++ toString pos))
    else
      match readUleb128 (data.drop (pos + 1)) with
      | .error e => .error (.msg ("ULEB128 error at offset " ++ toString (pos + 1) ++ ": " ++ e))
      | .ok (count, consumed) =>
        match sankhyaPadas data count (pos + 1 + consumed) [] with
        | .error e => .error e
        | .ok (digits, iFinal) => .ok (digits.reverse, iFinal - pos)
  else .error .panicked

/-- `decode_num` (`numeral.rs`): reads the NUM marker then glyph bytes
while each is `< 0x10`; returns `(digits, bytes consumed)`. -/
def decodeNum (data : List Nat) (pos : Nat) : Except DErr (List Nat × Nat) :=
  if pos < data.length then
    if data.getD pos 0 ≠ NUM then
      .error (.msg ("expected NUM at offset " ++ toString pos))
    else
      let ds := (data.drop (pos + 1)).takeWhile (fun x => x < 0x10)
      .ok (ds, 1 + ds.length)
  else .error .panicked

/-! ## Tokenizer and encoder (`encoder.rs`) -/

/-- `Token` (`encoder.rs`). -/
inductive Token where
  | svara : Nat → Token
  | vyanjana : Nat → Token
  | space : Token
  | danda : Token
  | doubleDanda : Token
  | avagraha : Token
  | numeral : List Char → Token
  deriving DecidableEq, Repr

/-- `match_single` (`encoder.rs`): single-character IAST table. -/
def matchSingle (ch : Char) : Option Token :=
  match ch with
  | 'a' => some (.svara 0x40)
  | 'ā' => some (.svara 0x80)
  | 'i' => some (.svara 0x44)
  | 'ī' => some (.svara 0x84)
  | 'u' => some (.svara 0x48)
  | 'ū' => some (.svara 0x88)
  | 'ṛ' => some (.svara 0x4C)
  | 'ṝ' => some (.svara 0x8C)
  | 'ḷ' => some (.svara 0x4F)
  | 'ḹ' => some (.svara 0x8F)
  | 'e' => some (.svara 0x85)
  | 'o' => some (.svara 0x89)
  | 'k' => some (.vyanjana 0x00)
  | 'g' => some (.vyanjana 0x02)
  | 'ṅ' => some (.vyanjana 0x04)
  | 'c' => some (.vyanjana 0x08)
  | 'j' => some (.vyanjana 0x0A)
  | 'ñ' => some (.vyanjana 0x0C)
  | 'ṭ' => some (.vyanjana 0x10)
  | 'ḍ' => some (.vyanjana 0x12)
  | 'ṇ' => some (.vyanjana 0x14)
  | 't' => some (.vyanjana 0x18)
  | 'd' => some (.vyanjana 0x1A)
  | 'n' => some (.vyanjana 0x1C)
  | 'p' => some (.vyanjana 0x20)
  | 'b' => some (.vyanjana 0x22)
  | 'm' => some (.vyanjana 0x24)
  | 'ś' => some (.vyanjana 0x29)
  | 'ṣ' => some (.vyanjana 0x2A)
  | 's' => some (.vyanjana 0x2B)
  | 'y' => some (.vyanjana 0x31)
  | 'v' => some (.vyanjana 0x32)
  | 'r' => some (.vyanjana 0x33)
  | 'l' => some (.vyanjana 0x34)
  | 'h' => some (.vyanjana 0x38)
  | 'ḥ' => some (.vyanjana 0x39)
  | 'ṃ' => some (.vyanjana 0x3A)
  | 'ẖ' => some (.vyanjana 0x3B)
  | 'ḫ' => some (.vyanjana 0x3C)
  | _ => none

/-- The aspirated-stop table of `tokenize_iast` (consonant + `h`). -/
def aspirate (ch : Char) : Option Nat :=
  match ch with
  | 'k' => some 0x01
  | 'g' => some 0x03
  | 'c' => some 0x09
  | 'j' => some 0x0B
  | 'ṭ' => some 0x11
  | 'ḍ' => some 0x13
  | 't' => some 0x19
  | 'd' => some 0x1B
  | 'p' => some 0x21
  | 'b' => some 0x23
  | _ => none

/-- The loop of `tokenize_iast` (`encoder.rs`).  `acc` holds the tokens
pushed so far in *reverse* order, so `acc.head?` is the source's
`tokens.last()`; `pos` is the running character position used in the
error message. -/
def tokenizeAux (cs : List Char) (fuel : Nat) (pos : Nat) (acc : List Token) :
    Except String (List Token) :=
  match cs with
  | [] => .ok acc.reverse
  | c :: rest =>
    match fuel with
    | 0 => .error "out of fuel"
    | fuel + 1 =>
      if c = '\r' then tokenizeAux rest fuel (pos + 1) acc
      else if c = ' ' ∨ c = '\t' ∨ c = '\n' then
        if acc.head? = some Token.space then tokenizeAux rest fuel (pos + 1) acc
        else tokenizeAux rest fuel (pos + 1) (Token.space :: acc)
      else if c = '|' ∧ rest.head? = some '|' then
        tokenizeAux rest.tail fuel (pos + 2) (Token.doubleDanda :: acc)
      else if c = '|' then tokenizeAux rest fuel (pos + 1) (Token.danda :: acc)
      else if c = '\'' ∨ c = 'ऽ' then tokenizeAux rest fuel (pos + 1) (Token.avagraha :: acc)
      else if c.isDigit then
        let run := c :: rest.takeWhile Char.isDigit
        tokenizeAux (rest.dropWhile Char.isDigit) fuel (pos + run.length)
          (Token.numeral run :: acc)
      else if c = 'a' ∧ rest.head? = some 'i' then
        tokenizeAux rest.tail fuel (pos + 2) (Token.svara 0x86 :: acc)
      else if c = 'a' ∧ rest.head? = some 'u' then
        tokenizeAux rest.tail fuel (pos + 2) (Token.svara 0x8A :: acc)
      else if rest.head? = some 'h' ∧ (aspirate c).isSome then
        tokenizeAux rest.tail fuel (pos + 2) (Token.vyanjana ((aspirate c).getD 0) :: acc)
      else
        match matchSingle c with
        | some t => tokenizeAux rest fuel (pos + 1) (t :: acc)
        | none =>
          .error ("unrecognized IAST character '" ++ toString c ++ "' (U+"
            ++ toString c.toNat ++ ") at position " ++ toString pos)

/-- `tokenize_iast` (`encoder.rs`). -/
def tokenizeIast (cs : List Char) : Except String (List Token) :=
  tokenizeAux cs (cs.length + 1) 0 []

/-- One iteration of the `tokens_to_bytes` loop: state is
`(bytes so far, inside-a-pada flag)`. -/
def tokenStep (st : List Nat × Bool) (t : Token) : List Nat × Bool :=
  match t with
  | .svara b | .vyanjana b =>
    (st.1 ++ (if st.2 then [] else [PADA_START]) ++ [b], true)
  | .space => (st.1 ++ (if st.2 then [PADA_END] else []) ++ [SPACE], false)
  | .danda => (st.1 ++ (if st.2 then [PADA_END] else []) ++ [DANDA], false)
  | .doubleDanda => (st.1 ++ (if st.2 then [PADA_END] else []) ++ [DOUBLE_DANDA], false)
  | .avagraha => (st.1 ++ (if st.2 then [] else [PADA_START]) ++ [AVAGRAHA], true)
  | .numeral digits => (st.1 ++ (if st.2 then [PADA_END] else []) ++ encodeNumeral digits, false)

/-- `tokens_to_bytes` (`encoder.rs`): fold the loop, then close any
still-open pada. -/
def tokensToBytes (tokens : List Token) : List Nat :=
  let st := tokens.foldl tokenStep ([], false)
  st.1 ++ (if st.2 then [PADA_END] else [])

/-- `encode_iast` (`encoder.rs`). -/
def encodeIast (input : List Char) : Except String (List Nat) :=
  (tokenizeIast input).map tokensToBytes

/-! ## Decoder (`decoder.rs`) -/

/-- `Script` (`decoder.rs`). -/
inductive Script where
  | iast : Script
  | devanagari : Script
  deriving DecidableEq, Repr

/-- `svara_to_iast` (`decoder.rs`): accent bits are masked out before
the lookup. -/
def svaraToIast (b : Nat) : List Char :=
  match b &&& 0b11001111 with
  | 0x40 => ['a']
  | 0x80 => ['ā']
  | 0x44 => ['i']
  | 0x84 => ['ī']
  | 0x48 => ['u']
  | 0x88 => ['ū']
  | 0x4C => ['ṛ']
  | 0x8C => ['ṝ']
  | 0x4F => ['ḷ']
  | 0x8F => ['ḹ']
  | 0x85 => ['e']
  | 0x86 => ['a', 'i']
  | 0x89 => ['o']
  | 0x8A => ['a', 'u']
  | _ => ['?']

/-- `vyanjana_to_iast` (`decoder.rs`). -/
def vyanjanaToIast (b : Nat) : List Char :=
  match b with
  | 0x00 => ['k'] | 0x01 => ['k', 'h'] | 0x02 => ['g'] | 0x03 => ['g', 'h'] | 0x04 => ['ṅ']
  | 0x08 => ['c'] | 0x09 => ['c', 'h'] | 0x0A => ['j'] | 0x0B => ['j', 'h'] | 0x0C => ['ñ']
  | 0x10 => ['ṭ'] | 0x11 => ['ṭ', 'h'] | 0x12 => ['ḍ'] | 0x13 => ['ḍ', 'h'] | 0x14 => ['ṇ']
  | 0x18 => ['t'] | 0x19 => ['t', 'h'] | 0x1A => ['d'] | 0x1B => ['d', 'h'] | 0x1C => ['n']
  | 0x20 => ['p'] | 0x21 => ['p', 'h'] | 0x22 => ['b'] | 0x23 => ['b', 'h'] | 0x24 => ['m']
  | 0x29 => ['ś'] | 0x2A => ['ṣ'] | 0x2B => ['s']
  | 0x31 => ['y'] | 0x32 => ['v'] | 0x33 => ['r'] | 0x34 => ['l']
  | 0x38 => ['h'] | 0x39 => ['ḥ'] | 0x3A => ['ṃ'] | 0x3B => ['ẖ'] | 0x3C => ['ḫ']
  | _ => ['?']

/-- `byte_to_iast` (`decoder.rs`). -/
def byteToIast (b : Nat) : List Char :=
  if isSvara b then svaraToIast b
  else if isVyanjana b then vyanjanaToIast b
  else ['?']

/-- The characters a lipi-control byte contributes during IAST decoding
(the source's `match` arms that `push` punctuation; reserved codes push
nothing). -/
def lipiIastChars (b : Nat) : List Char :=
  if b = SPACE then [' ']
  else if b = DANDA then ['|']
  else if b = DOUBLE_DANDA then ['|', '|']
  else if b = AVAGRAHA then ['\'']
  else []

/-- The loop of `decode_to_iast` (`decoder.rs`), cursor `i` over `data`. -/
def decodeIastAux (data : List Nat) : Nat → Nat → Except DErr (List Char)
  | fuel, i =>
    if i < data.length then
      match fuel with
      | 0 => .error .fuel
      | fuel + 1 =>
        let b := data.getD i 0
        if isBhashaControl b then
          if b = PADA_START ∨ b = PADA_END ∨ b = PHON_START ∨ b = PHON_END then
            decodeIastAux data fuel (i + 1)
          else if b = META_START then
            let skipped := ((data.drop (i + 1)).takeWhile (fun x => x ≠ META_END)).length
            decodeIastAux data fuel (i + 1 + skipped + 1)
          else if b = SANKHYA_START then
            match decodeSankhya data i with
            | .error e => .error e
            | .ok (digits, consumed) =>
              let i2 := i + consumed
              if i2 < data.length ∧ data.getD i2 0 = NUM then
                match decodeNum data i2 with
                | .error e => .error e
                | .ok (_, numConsumed) =>
                  (decodeIastAux data fuel (i2 + numConsumed)).map
                    (fun rest => digits.map digitChar ++ rest)
              else
                (decodeIastAux data fuel i2).map (fun rest => digits.map digitChar ++ rest)
          else decodeIastAux data fuel (i + 1)
        else if isLipiControl b then
          if b = NUM then
            match decodeNum data i with
            | .error e => .error e
            | .ok (digits, consumed) =>
              (decodeIastAux data fuel (i + consumed)).map
                (fun rest => digits.map digitChar ++ rest)
          else
            (decodeIastAux data fuel (i + 1)).map (fun rest => lipiIastChars b ++ rest)
        else if isSvara b then
          (decodeIastAux data fuel (i + 1)).map (fun rest => byteToIast b ++ rest)
        else if isVyanjana b then
          (decodeIastAux data fuel (i + 1)).map (fun rest => byteToIast b ++ rest)
        else
          .error (.msg ("unexpected byte " ++ toString b ++ " at offset " ++ toString i))
    else .ok []

/-- `decode_to_iast` (`decoder.rs`). -/
def decodeToIast (data : List Nat) : Except DErr (List Char) :=
  decodeIastAux data (data.length + 1) 0

/-- `DEVANAGARI_DIGITS` (`decoder.rs`): a 10-entry array; the source
indexes it with any glyph byte `< 0x10`, so an index in 10–15 is a Rust
panic (modelled by the caller). -/
def devanagariDigit : Nat → Char
  | 0 => '०' | 1 => '१' | 2 => '२' | 3 => '३' | 4 => '४'
  | 5 => '५' | 6 => '६' | 7 => '७' | 8 => '८' | _ => '९'

/-- `byte_to_devanagari_consonant` (`decoder.rs`). -/
def byteToDevanagariConsonant (b : Nat) : List Char :=
  match b with
  | 0x00 => ['क'] | 0x01 => ['ख'] | 0x02 => ['ग'] | 0x03 => ['घ'] | 0x04 => ['ङ']
  | 0x08 => ['च'] | 0x09 => ['छ'] | 0x0A => ['ज'] | 0x0B => ['झ'] | 0x0C => ['ञ']
  | 0x10 => ['ट'] | 0x11 => ['ठ'] | 0x12 => ['ड'] | 0x13 => ['ढ'] | 0x14 => ['ण']
  | 0x18 => ['त'] | 0x19 => ['थ'] | 0x1A => ['द'] | 0x1B => ['ध'] | 0x1C => ['न']
  | 0x20 => ['प'] | 0x21 => ['फ'] | 0x22 => ['ब'] | 0x23 => ['भ'] | 0x24 => ['म']
  | 0x29 => ['श'] | 0x2A => ['ष'] | 0x2B => ['स']
  | 0x31 => ['य'] | 0x32 => ['व'] | 0x33 => ['र'] | 0x34 => ['ल']
  | 0x38 => ['ह']
  | _ => ['?']

/-- `byte_to_devanagari_independent` (`decoder.rs`). -/
def byteToDevanagariIndependent (b : Nat) : List Char :=
  match b &&& 0b11001111 with
  | 0x40 => ['अ'] | 0x80 => ['आ']
  | 0x44 => ['इ'] | 0x84 => ['ई']
  | 0x48 => ['उ'] | 0x88 => ['ऊ']
  | 0x4C => ['ऋ'] | 0x8C => ['ॠ']
  | 0x4F => ['ऌ'] | 0x8F => ['ॡ']
  | 0x85 => ['ए'] | 0x86 => ['ऐ']
  | 0x89 => ['ओ'] | 0x8A => ['औ']
  | _ => ['?']

/-- `byte_to_devanagari_matra` (`decoder.rs`). -/
def byteToDevanagariMatra (b : Nat) : Option (List Char) :=
  match b &&& 0b11001111 with
  | 0x40 => none
  | 0x80 => some ['ा']
  | 0x44 => some ['ि']
  | 0x84 => some ['ी']
  | 0x48 => some ['ु']
  | 0x88 => some ['ू']
  | 0x4C => some ['ृ']
  | 0x8C => some ['ॄ']
  | 0x4F => some ['ॢ']
  | 0x8F => some ['ॣ']
  | 0x85 => some ['े']
  | 0x86 => some ['ै']
  | 0x89 => some ['ो']
  | 0x8A => some ['ौ']
  | _ => none

/-- `is_postfix_mark` (`decoder.rs`): visarga and anusvāra. -/
def isPostfixMark (b : Nat) : Bool := b == 0x39 || b == 0x3A

/-- `postfix_mark_devanagari` (`decoder.rs`). -/
def postfixMarkDevanagari (b : Nat) : List Char :=
  if b = 0x39 then ['ः'] else if b = 0x3A then ['ं'] else []

/-- Devanāgarī digit-glyph run: the source pushes
`DEVANAGARI_DIGITS[g]` for each glyph byte `g < 0x10` — a panic as soon
as some `g` is in 10–15 (array of length 10). -/
def devaGlyphRun (gs : List Nat) : Except DErr (List Char) :=
  if gs.all (fun g => g < 10) then .ok (gs.map devanagariDigit) else .error .panicked

/-- The loop of `decode_to_devanagari` (`decoder.rs`); `pending` is the
consonant-pending-a-vowel flag, `['्']` is the virāma. -/
def decodeDevaAux (data : List Nat) : Nat → Nat → Bool → Except DErr (List Char)
  | fuel, i, pending =>
    if i < data.length then
      match fuel with
      | 0 => .error .fuel
      | fuel + 1 =>
        let b := data.getD i 0
        let flush : List Char := if pending then ['्'] else []
        if isBhashaControl b then
          if b = PADA_START then decodeDevaAux data fuel (i + 1) pending
          else if b = PADA_END then
            (decodeDevaAux data fuel (i + 1) false).map (fun rest => flush ++ rest)
          else if b = PHON_START ∨ b = PHON_END then decodeDevaAux data fuel (i + 1) pending
          else if b = META_START then
            let skipped := ((data.drop (i + 1)).takeWhile (fun x => x ≠ META_END)).length
            decodeDevaAux data fuel (i + 1 + skipped + 1) pending
          else if b = SANKHYA_START then
            match decodeSankhya data i with
            | .error e => .error e
            | .ok (_, consumed) =>
              let i2 := i + consumed
              if i2 < data.length ∧ data.getD i2 0 = NUM then
                let gs := (data.drop (i2 + 1)).takeWhile (fun x => x < 0x10)
                match devaGlyphRun gs with
                | .error e => .error e
                | .ok glyphs =>
                  (decodeDevaAux data fuel (i2 + 1 + gs.length) false).map
                    (fun rest => flush ++ glyphs ++ rest)
              else
                (decodeDevaAux data fuel i2 false).map (fun rest => flush ++ rest)
          else decodeDevaAux data fuel (i + 1) pending
        else if isLipiControl b then
          if b = NUM then
            let gs := (data.drop (i + 1)).takeWhile (fun x => x < 0x10)
            match devaGlyphRun gs with
            | .error e => .error e
            | .ok glyphs =>
              (decodeDevaAux data fuel (i + 1 + gs.length) false).map
                (fun rest => flush ++ glyphs ++ rest)
          else
            let punct : List Char :=
              if b = SPACE then [' ']
              else if b = DANDA then ['।']
              else if b = DOUBLE_DANDA then ['॥']
              else if b = AVAGRAHA then ['ऽ']
              else []
            (decodeDevaAux data fuel (i + 1) false).map (fun rest => flush ++ punct ++ rest)
        else if isSvara b then
          if pending then
            let piece : List Char :=
              if b = 0x40 then [] else (byteToDevanagariMatra b).getD []
            (decodeDevaAux data fuel (i + 1) false).map (fun rest => piece ++ rest)
          else
            (decodeDevaAux data fuel (i + 1) false).map
              (fun rest => byteToDevanagariIndependent b ++ rest)
        else if isVyanjana b then
          if isPostfixMark b then
            (decodeDevaAux data fuel (i + 1) false).map
              (fun rest => postfixMarkDevanagari b ++ rest)
          else
            (decodeDevaAux data fuel (i + 1) true).map
              (fun rest => flush ++ byteToDevanagariConsonant b ++ rest)
        else
          .error (.msg ("unexpected byte " ++ toString b ++ " at offset " ++ toString i))
    else if pending then .ok ['्'] else .ok []

/-- `decode_to_devanagari` (`decoder.rs`). -/
def decodeToDevanagari (data : List Nat) : Except DErr (List Char) :=
  decodeDevaAux data (data.length + 1) 0 false

/-- `decode_phon` (`decoder.rs`). -/
def decodePhon (payload : List Nat) (script : Script) : Except DErr (List Char) :=
  match script with
  | .iast => decodeToIast payload
  | .devanagari => decodeToDevanagari payload

/-! ## Container framer (`container.rs`) -/

/-- `build_header` (`container.rs`): 14 bytes — magic, version quad,
three reserved zero bytes, the flag byte, and a zero little-endian u16
extended-header length. -/
def buildHeader (hasLipi hasMetaMarkers interleaved : Bool) : List Nat :=
  let flags :=
    (if hasLipi then FLAG_HAS_LIPI else 0) |||
    (if hasMetaMarkers then FLAG_HAS_META else 0) |||
    (if interleaved then FLAG_INTERLEAVED else 0)
  MAGIC ++ VERSION ++ [0x00, 0x00, 0x00, flags, 0x00, 0x00]

/-- `write_chunk` (`container.rs`). -/
def writeChunk (chunkType : Nat) (payload : List Nat) : List Nat :=
  chunkType :: writeUleb128 payload.length ++ payload

/-- `write_eof` (`container.rs`). -/
def writeEof : List Nat := [CHUNK_EOF, 0x00]

/-- `build_slbc` (`container.rs`): header (all three flags set), one
PHON chunk, then the EOF chunk. -/
def buildSlbc (phonPayload : List Nat) : List Nat :=
  buildHeader true true true ++ writeChunk CHUNK_PHON phonPayload ++ writeEof

/-- `SlbcHeader` (`container.rs`). -/
structure SlbcHeader where
  version : List Nat
  flags : Nat
  extendedHeaderLen : Nat
  deriving DecidableEq, Repr

def SlbcHeader.hasLipi (h : SlbcHeader) : Bool := h.flags &&& FLAG_HAS_LIPI != 0

def SlbcHeader.hasMeta (h : SlbcHeader) : Bool := h.flags &&& FLAG_HAS_META != 0

def SlbcHeader.isInterleaved (h : SlbcHeader) : Bool := h.flags &&& FLAG_INTERLEAVED != 0

/-- `Chunk` (`container.rs`). -/
structure Chunk where
  chunkType : Nat
  payload : List Nat
  deriving DecidableEq, Repr

/-- The chunk-reading loop of `parse_slbc`: reads chunks from `pos`
until the buffer is exhausted or an EOF chunk was consumed. -/
def parseChunks (data : List Nat) : Nat → Nat → List Chunk → Except String (List Chunk)
  | fuel, pos, chunks =>
    if pos < data.length then
      match fuel with
      | 0 => .error "out of fuel"
      | fuel + 1 =>
        let chunkType := data.getD pos 0
        let pos := pos + 1
        match readUleb128 (data.drop pos) with
        | .error e =>
          .error ("chunk length ULEB128 error at offset " ++ toString pos ++ ": " ++ e)
        | .ok (payloadLen, consumed) =>
          let pos := pos + consumed
          if pos + payloadLen > data.length then
            .error ("chunk payload extends beyond file (offset " ++ toString pos
              ++ ", len " ++ toString payloadLen ++ ")")
          else
            let payload := (data.drop pos).take payloadLen
            let pos := pos + payloadLen
            let chunks := chunks ++ [⟨chunkType, payload⟩]
            if chunkType = CHUNK_EOF then .ok chunks
            else parseChunks data fuel pos chunks
    else .ok chunks

/-- `parse_slbc` (`container.rs`). -/
def parseSlbc (data : List Nat) : Except String (SlbcHeader × List Chunk) :=
  if data.length < 14 then .error "file too short for SLBC header"
  else if data.take 4 ≠ MAGIC then .error "invalid magic bytes (expected 'SLBC')"
  else
    let version := (data.drop 4).take 4
    let flags := data.getD 11 0
    let extLen := data.getD 12 0 + 256 * data.getD 13 0
    let header : SlbcHeader := ⟨version, flags, extLen⟩
    let pos := 14 + extLen
    match parseChunks data (data.length + 1) pos [] with
    | .error e => .error e
    | .ok chunks => .ok (header, chunks)

/-! ## Transform engine (`transform.rs`) -/

/-- `TransformResult` (`transform.rs`). -/
structure TransformResult where
  inputByte : Nat
  outputByte : Nat
  operation : String
  inputIast : List Char
  outputIast : List Char
  deriving DecidableEq, Repr

/-- `make_svara_result` (`transform.rs`). -/
def makeSvaraResult (input output : Nat) (op : String) : TransformResult :=
  ⟨input, output, op, byteToIast input, byteToIast output⟩

/-- `guna` (`transform.rs`). -/
def guna (b : Nat) : Except String TransformResult :=
  if ¬ isSvara b then .error (toString b ++ " is not a svara")
  else
    let s := svaraS b
    if s = 0 then .error "a-series has no guṇa transformation"
    else
      let accent := svaraA b
      let result := (0b10 <<< 6) ||| (accent <<< 4) ||| (s <<< 2) ||| 0b01
      .ok (makeSvaraResult b result "guṇa")

/-- `vrddhi` (`transform.rs`). -/
def vrddhi (b : Nat) : Except String TransformResult :=
  if ¬ isSvara b then .error (toString b ++ " is not a svara")
  else
    let s := svaraS b
    if s = 0 then
      let accent := svaraA b
      let result := (0b10 <<< 6) ||| (accent <<< 4) ||| 0b10
      .ok (makeSvaraResult b result "vṛddhi")
    else
      let accent := svaraA b
      let result := (0b10 <<< 6) ||| (accent <<< 4) ||| (s <<< 2) ||| 0b10
      .ok (makeSvaraResult b result "vṛddhi")

/-- `dirgha` (`transform.rs`). -/
def dirgha (b : Nat) : Except String TransformResult :=
  if ¬ isSvara b then .error (toString b ++ " is not a svara")
  else .ok (makeSvaraResult b ((b &&& 0b00111111) ||| (0b10 <<< 6)) "dīrgha")

/-- `hrasva` (`transform.rs`). -/
def hrasva (b : Nat) : Except String TransformResult :=
  if ¬ isSvara b then .error (toString b ++ " is not a svara")
  else .ok (makeSvaraResult b ((b &&& 0b00111111) ||| (0b01 <<< 6)) "hrasva")

/-- `savarna_dirgha` (`transform.rs`). -/
def savarnaDirgha (a b : Nat) : Except String TransformResult :=
  if ¬ isSvara a ∨ ¬ isSvara b then .error "both inputs must be svaras"
  else if svaraS a ≠ svaraS b then .error "svaras are not savarṇa (different series)"
  else
    let accent := svaraA a
    let s := svaraS a
    let result := (0b10 <<< 6) ||| (accent <<< 4) ||| (s <<< 2)
    .ok ⟨a, result, "savarṇa-dīrgha",
      byteToIast a ++ [' ', '+', ' '] ++ byteToIast b, byteToIast result⟩

/-- `make_vyanjana_result` (`transform.rs`). -/
def makeVyanjanaResult (input output : Nat) (op : String) : TransformResult :=
  ⟨input, output, op, byteToIast input, byteToIast output⟩

/-- `require_varga` failure message is folded into each operation. -/
def notVargaMsg (b : Nat) (op : String) : String :=
  toString b ++ " is not a varga consonant — " ++ op ++ " is defined only for PLACE 0–4"

/-- `jastva` (`transform.rs`). -/
def jastva (b : Nat) : Except String TransformResult :=
  if ¬ isVarga b then .error (notVargaMsg b "jaśtva")
  else .ok (makeVyanjanaResult b ((b &&& 0b11111000) ||| 0b010) "jaśtva")

/-- `toggle_voice` (`transform.rs`). -/
def toggleVoice (b : Nat) : Except String TransformResult :=
  if ¬ isVarga b then .error (notVargaMsg b "toggle voice")
  else .ok (makeVyanjanaResult b (b ^^^ 0b010) "toggle voice")

/-- `toggle_aspiration` (`transform.rs`). -/
def toggleAspiration (b : Nat) : Except String TransformResult :=
  if ¬ isVarga b then .error (notVargaMsg b "toggle aspiration")
  else .ok (makeVyanjanaResult b (b ^^^ 0b001) "toggle aspiration")

/-- `make_nasal` (`transform.rs`). -/
def makeNasal (b : Nat) : Except String TransformResult :=
  if ¬ isVarga b then .error (notVargaMsg b "make nasal")
  else .ok (makeVyanjanaResult b ((b &&& 0b11111000) ||| 0b100) "make nasal")

/-- `homorganic_nasal` (`transform.rs`). -/
def homorganicNasal (target : Nat) : Except String TransformResult :=
  if ¬ isVarga target then .error (notVargaMsg target "homorganic nasal")
  else .ok (makeVyanjanaResult target ((target &&& 0b11111000) ||| 0b100) "homorganic nasal")

/-- `samprasarana_to_svara` (`transform.rs`). -/
def samprasaranaToSvara (b : Nat) : Except String TransformResult :=
  let result? : Option Nat :=
    if b = 0x31 then some 0x44
    else if b = 0x32 then some 0x48
    else if b = 0x33 then some 0x4C
    else if b = 0x34 then some 0x4F
    else none
  match result? with
  | none => .error (toString b ++ " is not a sonorant (ya/va/ra/la)")
  | some result =>
    .ok ⟨b, result, "saṃprasāraṇa (→svara)", byteToIast b, byteToIast result⟩

/-- `samprasarana_to_sonorant` (`transform.rs`). -/
def samprasaranaToSonorant (b : Nat) : Except String TransformResult :=
  let result? : Option Nat :=
    if b = 0x44 then some 0x31
    else if b = 0x48 then some 0x32
    else if b = 0x4C then some 0x33
    else if b = 0x4F then some 0x34
    else none
  match result? with
  | none => .error (toString b ++ " is not a saṃprasāraṇa-eligible svara")
  | some result =>
    .ok ⟨b, result, "saṃprasāraṇa (→sonorant)", byteToIast b, byteToIast result⟩

/-! ## Derived observation helpers used in theorem statements -/

/-- The accent field of the output byte of a successful transform. -/
def transformAccent (r : Except String TransformResult) : Option Nat :=
  match r with
  | .ok t => some (svaraA t.outputByte)
  | .error _ => none

/-- The `(Q, A, S, G)` field quadruple of the output byte of a
successful transform. -/
def transformFields (r : Except String TransformResult) : Option (Nat × Nat × Nat × Nat) :=
  match r with
  | .ok t => some (svaraQ t.outputByte, svaraA t.outputByte, svaraS t.outputByte,
      svaraG t.outputByte)
  | .error _ => none

/-- Encode-then-decode composition used by the round-trip claims. -/
def roundTrip (input : List Char) (script : Script) : Except String (Except DErr (List Char)) :=
  (encodeIast input).map (fun p => decodePhon p script)

/-- Low 7 bits of each group byte, assembled little-endian: the value a
ULEB128 byte list denotes. -/
def ulebValue (bs : List Nat) : Nat := bs.foldr (fun b acc => b % 128 + 128 * acc) 0

/-! ## C1 development: rendering, well-formedness, canonical strings -/

/-- The IAST text a single token stands for (what the decoder prints for
the bytes the encoder emits for it). -/
def renderTok : Token → List Char
  | .svara b => byteToIast b
  | .vyanjana b => byteToIast b
  | .space => [' ']
  | .danda => ['|']
  | .doubleDanda => ['|', '|']
  | .avagraha => ['\'']
  | .numeral s => (s.map charToDigit).map digitChar

def renderToks (ts : List Token) : List Char :=
  ts.foldr (fun t acc => renderTok t ++ acc) []

/-- Structural validity of a token as the tokenizer produces it. -/
def tokValid : Token → Bool
  | .svara b => isSvara b
  | .vyanjana b => isVyanjana b
  | .numeral s => s.all Char.isDigit
  | _ => true

/-- No numeral token immediately followed by a single daṇḍa (whose
lipi byte `0x0F` would be swallowed by the NUM glyph-span skip). -/
def wfToks : List Token → Bool
  | .numeral _ :: .danda :: _ => false
  | _ :: rest => wfToks rest
  | [] => true

/-- The characters of the supported alphabet that survive the round
trip verbatim (whitespace only as the plain space, avagraha only as the
ASCII apostrophe). -/
def allowedChar (c : Char) : Bool :=
  c = ' ' || c = '|' || c = '\'' || c.isDigit || (matchSingle c).isSome

/-- Canonical strings: every character allowed, no two consecutive
spaces, and no digit immediately followed by a single daṇḍa. -/
def canonicalChars : List Char → Bool
  | [] => true
  | [c] => allowedChar c
  | c1 :: c2 :: rest =>
    allowedChar c1 && !(c1 = ' ' && c2 = ' ')
      && !(c1.isDigit && c2 = '|' && rest.head? ≠ some '|')
      && canonicalChars (c2 :: rest)

/-- The bytes one token contributes given the in-pada flag. -/
def segBytes (t : Token) (inPada : Bool) : List Nat := (tokenStep ([], inPada) t).1

/-- The in-pada flag after one token. -/
def nextPada (t : Token) (inPada : Bool) : Bool := (tokenStep ([], inPada) t).2

/-- `tokens_to_bytes` restated recursively (loop plus the final close of
a still-open pada folded into the nil case). -/
def tokensToBytesAux : List Token → Bool → List Nat
  | [], inPada => if inPada then [PADA_END] else []
  | t :: ts, inPada => segBytes t inPada ++ tokensToBytesAux ts (nextPada t inPada)

/-- The SAṄKHYĀ span of `encode_numeral` for the digit-value list `ds`. -/
def sankhyaSpan (ds : List Nat) : List Nat :=
  SANKHYA_START :: (writeUleb128 ds.length
    ++ ds.reverse.foldr (fun d acc => PADA_START :: digitWord d ++ PADA_END :: acc) [])

/-- The digit-pada block for digit values `l` in emitted order. -/
def padasOf (l : List Nat) : List Nat :=
  l.foldr (fun d acc => PADA_START :: digitWord d ++ PADA_END :: acc) []

end Slbc

namespace Slbc

theorem land_sevenbits (b : Nat) : b &&& 127 = b % 128 := by
  have h127 : (127 : Nat) = 2 ^ 7 - 1 := by norm_num
  have h128 : (128 : Nat) = 2 ^ 7 := by norm_num
  apply Nat.eq_of_testBit_eq
  intro i
  rw [Nat.testBit_land, h127, h128, Nat.testBit_two_pow_sub_one, Nat.testBit_mod_two_pow,
    Bool.and_comm]

theorem lor_shift_add {a : Nat} (m s : Nat) (h : a < 2 ^ s) :
    a ||| (m <<< s) = a + m * 2 ^ s := by
  rw [Nat.shiftLeft_eq]
  apply Nat.eq_of_testBit_eq
  intro i
  rw [Nat.testBit_lor]
  rcases Nat.lt_or_ge i s with hi | hi
  · have hfac : (2 : Nat) ^ s = 2 ^ i * 2 ^ (s - i) := by
      rw [← pow_add]; congr 1; omega
    have hev : ∃ k, m * 2 ^ (s - i) = 2 * k := by
      refine ⟨m * 2 ^ (s - i - 1), ?_⟩
      have h2 : (2 : Nat) ^ (s - i) = 2 * 2 ^ (s - i - 1) := by
        rw [← pow_succ']; congr 1; omega
      rw [h2]; ring
    obtain ⟨k, hk⟩ := hev
    have h1 : Nat.testBit (m * 2 ^ s) i = false := by
      rw [Nat.testBit_to_div_mod]
      rw [hfac, show m * (2 ^ i * 2 ^ (s - i)) = 2 ^ i * (m * 2 ^ (s - i)) by ring,
        Nat.mul_div_cancel_left _ (Nat.pos_pow_of_pos i (by norm_num)), hk]
      simp [Nat.mul_mod_right]
    have h2 : Nat.testBit (a + m * 2 ^ s) i = Nat.testBit a i := by
      rw [Nat.testBit_to_div_mod, Nat.testBit_to_div_mod]
      rw [hfac, show a + m * (2 ^ i * 2 ^ (s - i)) = a + 2 ^ i * (m * 2 ^ (s - i)) by ring,
        Nat.add_mul_div_left _ _ (Nat.pos_pow_of_pos i (by norm_num)), hk,
        Nat.add_mul_mod_self_left]
    rw [h1, h2, Bool.or_false]
  · have ha : Nat.testBit a i = false := by
      apply Nat.testBit_lt_two_pow
      calc a < 2 ^ s := h
        _ ≤ 2 ^ i := Nat.pow_le_pow_right (by norm_num) hi
    have key : (a + m * 2 ^ s) / 2 ^ i = (m * 2 ^ s) / 2 ^ i := by
      have hfac : (2 : Nat) ^ i = 2 ^ s * 2 ^ (i - s) := by
        rw [← pow_add]; congr 1; omega
      rw [hfac, ← Nat.div_div_eq_div_mul, ← Nat.div_div_eq_div_mul]
      congr 1
      rw [show a + m * 2 ^ s = a + 2 ^ s * m by ring,
        Nat.add_mul_div_left _ _ (Nat.pos_pow_of_pos s (by norm_num)),
        Nat.div_eq_of_lt h, Nat.mul_div_cancel _ (Nat.pos_pow_of_pos s (by norm_num))]
      omega
    rw [ha, Bool.false_or, Nat.testBit_to_div_mod, Nat.testBit_to_div_mod, key]

/-- If no group with a clear continuation bit occurs among the (at most
five) groups the reader can visit, `read_uleb128`'s loop fails with one
of the two non-termination errors, never the overflow error. -/
theorem readUleb128Go_no_term :
    ∀ (bs : List Nat) (i shift acc : Nat),
      (∀ m, m < bs.length → i + m < 5 → bs.getD m 0 &&& 0x80 ≠ 0) →
      readUleb128Go bs i shift acc = .error "truncated ULEB128" ∨
      readUleb128Go bs i shift acc = .error "ULEB128 exceeds 5 bytes (max u32)"
  | [], i, shift, acc, _ => by left; rfl
  | b :: rest, i, shift, acc, h => by
    rcases Nat.lt_or_ge i 5 with hi | hi
    · have hb : b &&& 0x80 ≠ 0 := by
        have := h 0 (by simp) (by omega)
        simpa using this
      have step : readUleb128Go (b :: rest) i shift acc
          = readUleb128Go rest (i + 1) (shift + 7) (acc ||| ((b &&& 0x7F) <<< shift)) := by
        simp only [readUleb128Go]
        rw [if_neg (by omega), if_neg hb]
      rw [step]
      exact readUleb128Go_no_term rest (i + 1) (shift + 7) _
        (fun m hm h5 => by
          have := h (m + 1) (by simpa using Nat.succ_lt_succ hm) (by omega)
          simpa using this)
    · right
      simp only [readUleb128Go]
      rw [if_pos hi]

/-- If the first clear-continuation group is at index `j < 5`, the loop
returns the accumulated value (overflow-checked) after `j + 1` bytes. -/
theorem readUleb128Go_term :
    ∀ (j : Nat) (bs : List Nat) (i acc : Nat),
      j < bs.length → i + j < 5 →
      (∀ m, m < j → bs.getD m 0 &&& 0x80 ≠ 0) →
      bs.getD j 0 &&& 0x80 = 0 →
      acc < 2 ^ (7 * i) →
      (0xFFFFFFFF < acc + ulebValue (bs.take (j + 1)) * 2 ^ (7 * i) →
        readUleb128Go bs i (7 * i) acc = .error "ULEB128 value exceeds u32 range") ∧
      (acc + ulebValue (bs.take (j + 1)) * 2 ^ (7 * i) ≤ 0xFFFFFFFF →
        readUleb128Go bs i (7 * i) acc
          = .ok (acc + ulebValue (bs.take (j + 1)) * 2 ^ (7 * i), i + j + 1))
  | 0, [], i, acc, hlen, _, _, _, _ => by simp at hlen
  | 0, b :: rest, i, acc, hlen, hi5, hcont, hterm, hacc => by
    have hb : b &&& 0x80 = 0 := by simpa using hterm
    have hval : acc ||| ((b &&& 0x7F) <<< (7 * i)) = acc + (b % 128) * 2 ^ (7 * i) := by
      have h7f : b &&& 0x7F = b % 128 := land_sevenbits b
      rw [h7f]
      exact lor_shift_add _ _ hacc
    have hu : ulebValue ((b :: rest).take 1) = b % 128 := by
      simp [ulebValue]
    constructor
    · intro hover
      simp only [readUleb128Go]
      rw [if_neg (by omega), hval, if_pos hb, if_pos (by rw [hu] at hover; omega)]
    · intro hle
      simp only [readUleb128Go]
      rw [if_neg (by omega), hval, if_pos hb, if_neg (by rw [hu] at hle; omega), hu]
  | j + 1, [], i, acc, hlen, _, _, _, _ => by simp at hlen
  | j + 1, b :: rest, i, acc, hlen, hi5, hcont, hterm, hacc => by
    have hb : b &&& 0x80 ≠ 0 := by
      have := hcont 0 (by omega)
      simpa using this
    have hval : acc ||| ((b &&& 0x7F) <<< (7 * i)) = acc + (b % 128) * 2 ^ (7 * i) := by
      have h7f : b &&& 0x7F = b % 128 := land_sevenbits b
      rw [h7f]
      exact lor_shift_add _ _ hacc
    have hacc' : acc + (b % 128) * 2 ^ (7 * i) < 2 ^ (7 * (i + 1)) := by
      have hb128 : b % 128 < 128 := Nat.mod_lt _ (by norm_num)
      have : acc + (b % 128) * 2 ^ (7 * i) < 2 ^ (7 * i) + 127 * 2 ^ (7 * i) := by
        have := Nat.mul_le_mul_right (2 ^ (7 * i)) (show b % 128 ≤ 127 by omega)
        omega
      calc acc + (b % 128) * 2 ^ (7 * i) < 128 * 2 ^ (7 * i) := by omega
        _ = 2 ^ (7 * (i + 1)) := by rw [show 7 * (i + 1) = 7 * i + 7 by ring, pow_add]; ring
    have ih := readUleb128Go_term j rest (i + 1) (acc + (b % 128) * 2 ^ (7 * i))
      (by simpa using Nat.lt_of_succ_lt_succ (by simpa using hlen))
      (by omega)
      (fun m hm => by
        have := hcont (m + 1) (by omega)
        simpa using this)
      (by simpa using hterm)
      hacc'
    have hvv : acc + ulebValue ((b :: rest).take (j + 1 + 1)) * 2 ^ (7 * i)
        = acc + (b % 128) * 2 ^ (7 * i)
          + ulebValue (rest.take (j + 1)) * 2 ^ (7 * (i + 1)) := by
      have : ulebValue ((b :: rest).take (j + 1 + 1))
          = b % 128 + 128 * ulebValue (rest.take (j + 1)) := by
        simp [ulebValue]
      rw [this, show 7 * (i + 1) = 7 * i + 7 by ring, pow_add]
      ring
    have step : readUleb128Go (b :: rest) i (7 * i) acc
        = readUleb128Go rest (i + 1) (7 * i + 7) (acc + (b % 128) * 2 ^ (7 * i)) := by
      simp only [readUleb128Go]
      rw [if_neg (by omega), hval, if_neg hb]
    constructor
    · intro hover
      rw [step, show 7 * i + 7 = 7 * (i + 1) by ring]
      exact ih.1 (by rw [hvv] at hover; omega)
    · intro hle
      rw [step, show 7 * i + 7 = 7 * (i + 1) by ring]
      rw [ih.2 (by rw [hvv] at hle; omega)]
      congr 2
      · omega
      · omega

theorem and_msb_ne_zero {x : Nat} (h1 : 128 ≤ x) (h2 : x < 256) : x &&& 0x80 ≠ 0 := by
  have h := Nat.and_two_pow x 7
  norm_num at h
  rw [h]
  have ht : x.testBit 7 = true := by
    rw [Nat.testBit_to_div_mod]
    norm_num
    omega
  simp [ht]

theorem and_msb_eq_zero {x : Nat} (h : x < 128) : x &&& 0x80 = 0 := by
  have hb := Nat.and_two_pow x 7
  norm_num at hb
  rw [hb]
  have ht : x.testBit 7 = false := Nat.testBit_lt_two_pow (by norm_num; omega)
  simp [ht]

theorem contByte_eq {v : Nat} : (v &&& 0x7F) ||| 0x80 = v % 128 + 128 := by
  rw [land_sevenbits]
  have h := lor_shift_add (a := v % 128) 1 7 (Nat.mod_lt _ (by norm_num))
  norm_num at h
  rw [show ((1 : Nat) <<< 7) = 0x80 by decide] at h
  exact h

theorem writeUleb128Aux_succ (fuel n : Nat) :
    writeUleb128Aux (fuel + 1) n
      = if n >>> 7 = 0 then [n &&& 0x7F]
        else ((n &&& 0x7F) ||| 0x80) :: writeUleb128Aux fuel (n >>> 7) := rfl

theorem writeUleb128Aux_spec :
    ∀ (fuel n : Nat), n < 2 ^ (7 * (fuel + 1)) →
      1 ≤ (writeUleb128Aux (fuel + 1) n).length ∧
      (writeUleb128Aux (fuel + 1) n).length ≤ fuel + 1 ∧
      (∀ m, m + 1 < (writeUleb128Aux (fuel + 1) n).length →
        (writeUleb128Aux (fuel + 1) n).getD m 0 &&& 0x80 ≠ 0) ∧
      (writeUleb128Aux (fuel + 1) n).getD
        ((writeUleb128Aux (fuel + 1) n).length - 1) 0 &&& 0x80 = 0 ∧
      ulebValue (writeUleb128Aux (fuel + 1) n) = n
  | fuel, n, hn => by
    have hshift : n >>> 7 = n / 128 := by
      rw [Nat.shiftRight_eq_div_pow]
    have hland : n &&& 0x7F = n % 128 := land_sevenbits n
    rcases Nat.eq_zero_or_pos (n >>> 7) with hz | hpos
    · have hn128 : n < 128 := by
        rw [hshift] at hz; omega
      have hw : writeUleb128Aux (fuel + 1) n = [n] := by
        rw [writeUleb128Aux_succ, if_pos hz, hland, Nat.mod_eq_of_lt hn128]
      rw [hw]
      refine ⟨by simp, by simp, by simp, ?_, ?_⟩
      · simpa using and_msb_eq_zero hn128
      · simp [ulebValue, Nat.mod_eq_of_lt hn128]
    · match fuel with
      | 0 =>
        exfalso
        rw [hshift] at hpos
        have : n < 128 := by
          norm_num at hn; omega
        omega
      | fuel + 1 =>
        have hn' : n / 128 < 2 ^ (7 * (fuel + 1)) := by
          have h1 : n < 2 ^ (7 * (fuel + 1)) * 128 := by
            calc n < 2 ^ (7 * (fuel + 1 + 1)) := hn
              _ = 2 ^ (7 * (fuel + 1)) * 128 := by
                rw [show 7 * (fuel + 1 + 1) = 7 * (fuel + 1) + 7 by ring, pow_add]; norm_num
          omega
        have ih := writeUleb128Aux_spec fuel (n / 128) hn'
        have hw : writeUleb128Aux (fuel + 1 + 1) n
            = (n % 128 + 128) :: writeUleb128Aux (fuel + 1) (n / 128) := by
          rw [writeUleb128Aux_succ, if_neg (by omega), contByte_eq, hshift]
        obtain ⟨ih1, ih2, ihcont, ihterm, ihval⟩ := ih
        rw [hw]
        refine ⟨by simp, by simp; omega, ?_, ?_, ?_⟩
        · intro m hm
          match m with
          | 0 =>
            simp only [List.getD_cons_zero]
            exact and_msb_ne_zero (by omega) (by have := Nat.mod_lt n (y := 128); omega)
          | m + 1 =>
            simp only [List.getD_cons_succ]
            exact ihcont m (by simpa using hm)
        · have hlen : ((n % 128 + 128) :: writeUleb128Aux (fuel + 1) (n / 128)).length - 1
              = (writeUleb128Aux (fuel + 1) (n / 128)).length - 1 + 1 := by
            simp; omega
          rw [hlen, List.getD_cons_succ]
          exact ihterm
        · show (n % 128 + 128) % 128 + 128 * ulebValue (writeUleb128Aux (fuel + 1) (n / 128)) = n
          rw [ihval]
          omega

theorem writeUleb128Aux_fuel_irrel :
    ∀ (f g n : Nat), n < 2 ^ (7 * (f + 1)) →
      writeUleb128Aux (f + 1 + g) n = writeUleb128Aux (f + 1) n
  | f, g, n, hn => by
    rcases Nat.eq_zero_or_pos (n >>> 7) with hz | hpos
    · match g with
      | 0 => rfl
      | g + 1 =>
        show writeUleb128Aux (f + 1 + g + 1) n = _
        have hL : writeUleb128Aux (f + 1 + g + 1) n = [n &&& 0x7F] := by
          rw [writeUleb128Aux_succ, if_pos hz]
        have hR : writeUleb128Aux (f + 1) n = [n &&& 0x7F] := by
          rw [writeUleb128Aux_succ, if_pos hz]
        rw [hL, hR]
    · match f with
      | 0 =>
        exfalso
        have hshift : n >>> 7 = n / 128 := by
          rw [Nat.shiftRight_eq_div_pow]
        rw [hshift] at hpos
        norm_num at hn
        omega
      | f + 1 =>
        have hshift : n >>> 7 = n / 128 := by
          rw [Nat.shiftRight_eq_div_pow]
        have hn' : n >>> 7 < 2 ^ (7 * (f + 1)) := by
          rw [hshift]
          have h1 : n < 2 ^ (7 * (f + 1)) * 128 := by
            calc n < 2 ^ (7 * (f + 1 + 1)) := hn
              _ = 2 ^ (7 * (f + 1)) * 128 := by
                rw [show 7 * (f + 1 + 1) = 7 * (f + 1) + 7 by ring, pow_add]; norm_num
          omega
        have ih := writeUleb128Aux_fuel_irrel f g (n >>> 7) hn'
        show writeUleb128Aux (f + 1 + 1 + g) n = writeUleb128Aux (f + 1 + 1) n
        have e1 : f + 1 + 1 + g = (f + 1 + g) + 1 := by omega
        have hL : writeUleb128Aux ((f + 1 + g) + 1) n
            = ((n &&& 0x7F) ||| 0x80) :: writeUleb128Aux (f + 1 + g) (n >>> 7) := by
          rw [writeUleb128Aux_succ, if_neg (by omega)]
        have hR : writeUleb128Aux (f + 1 + 1) n
            = ((n &&& 0x7F) ||| 0x80) :: writeUleb128Aux (f + 1) (n >>> 7) := by
          rw [writeUleb128Aux_succ, if_neg (by omega)]
        rw [e1, hL, hR, ih]

/-- For a value in `u32` range, `write_uleb128` emits at most five
groups, all but the last with the continuation bit, and the reader
returns exactly the value and the encoded length, whatever follows. -/
theorem readUleb128_writeUleb128 (n : Nat) (hn : n ≤ 0xFFFFFFFF) (rest : List Nat) :
    readUleb128 (writeUleb128 n ++ rest)
      = .ok (n, (writeUleb128 n).length) ∧ (writeUleb128 n).length ≤ 5 := by
  have h35 : n < 2 ^ (7 * (4 + 1)) := by norm_num; omega
  have heq : writeUleb128 n = writeUleb128Aux (4 + 1) n := by
    have := writeUleb128Aux_fuel_irrel 4 6 n h35
    simpa [writeUleb128] using this
  obtain ⟨h1, h5, hcont, hterm, hval⟩ := writeUleb128Aux_spec 4 n h35
  rw [← heq] at h1 h5 hcont hterm hval
  set w := writeUleb128 n with hw
  have hj : w.length - 1 + 1 = w.length := by omega
  have key := readUleb128Go_term (w.length - 1) (w ++ rest) 0 0
    (by simp; omega)
    (by omega)
    (fun m hm => by
      rw [List.getD_append _ _ _ _ (by omega)]
      exact hcont m (by omega))
    (by rw [List.getD_append _ _ _ _ (by omega)]; exact hterm)
    (by norm_num)
  have hvtake : ulebValue ((w ++ rest).take (w.length - 1 + 1)) = n := by
    rw [hj, List.take_left, hval]
  rw [hvtake] at key
  have hok := key.2 (by simpa using hn)
  have e : (0 : Nat) + n * 2 ^ (7 * 0) = n := by norm_num
  have e1 : 0 + (w.length - 1) + 1 = w.length := by omega
  rw [e, e1] at hok
  exact ⟨hok, h5⟩

end Slbc

namespace SlbcClaims
open Slbc

/-! ## C2 — decoder totality -/

/-- **C2.** The claim says `decode_phon` is total (`Ok` or a decode
error, never a panic) on every byte slice, naming in particular a
`SANKHYA_START` byte followed by a count announcing more digit-padas
than are present.  Exactly that input, `[0x3E, 0x01]`, drives
`decode_sankhya`'s `data[i]` index out of bounds (numeral.rs, the
digit-pada loop), which in Rust is a panic, under both scripts. -/
theorem decodePhon_panics_on_truncated_sankhya :
    decodePhon [0x3E, 0x01] Script.iast = .error .panicked ∧
    decodePhon [0x3E, 0x01] Script.devanagari = .error .panicked := by
  decide

/-! ## C4 — byte classification partition -/

set_option maxRecDepth 10000 in
/-- **C4.** For every byte value `b < 256` exactly one of the five
classes holds: svara, vyañjana, bhāṣā control, lipi control, or
reserved (none of the four predicates). -/
theorem byte_classification_partition (b : Nat) (hb : b < 256) :
    [isSvara b, isVyanjana b, isBhashaControl b,
      isLipiControl b, isReservedByte b].count true = 1 := by
  revert b; decide

/-- Witness for C4 at the reserved byte `0x05`. -/
theorem byte_classification_partition_witness :
    [isSvara 0x05, isVyanjana 0x05, isBhashaControl 0x05,
      isLipiControl 0x05, isReservedByte 0x05].count true = 1 :=
  byte_classification_partition 0x05 (by decide)

/-! ## C5 — numeral encoding of "108" -/

/-- **C5.** `encode_numeral("108")` yields a buffer beginning
`SANKHYA_START, 0x03, PADA_START`, containing a NUM byte later, and
`decode_sankhya` at position 0 returns `[1, 0, 8]` in natural order. -/
theorem encode_numeral_108 :
    (encodeNumeral "108".data).take 3 = [SANKHYA_START, 0x03, PADA_START] ∧
    NUM ∈ (encodeNumeral "108".data).drop 3 ∧
    (decodeSankhya (encodeNumeral "108".data) 0).map Prod.fst = .ok [1, 0, 8] := by
  decide

/-! ## C7 — accent preservation -/

set_option synthInstance.maxSize 2000 in
set_option maxRecDepth 10000 in
/-- **C7.** For every svara byte whose accent field is udātta (`A = 01`),
`guna` (when it succeeds, i.e. the series is not the a-series),
`vrddhi`, `dirgha`, and `hrasva` all yield an output byte whose accent
field is still exactly udātta. -/
theorem transforms_preserve_udatta (b : Nat) (hb : b < 256)
    (hs : isSvara b = true) (ha : svaraA b = 1) :
    (svaraS b ≠ 0 → transformAccent (guna b) = some 1) ∧
    transformAccent (vrddhi b) = some 1 ∧
    transformAccent (dirgha b) = some 1 ∧
    transformAccent (hrasva b) = some 1 := by
  revert b; decide

/-- Witness for C7 at udātta i (`0x54`). -/
theorem transforms_preserve_udatta_witness :
    (svaraS 0x54 ≠ 0 → transformAccent (guna 0x54) = some 1) ∧
    transformAccent (vrddhi 0x54) = some 1 ∧
    transformAccent (dirgha 0x54) = some 1 ∧
    transformAccent (hrasva 0x54) = some 1 :=
  transforms_preserve_udatta 0x54 (by decide) (by decide) (by decide)

/-! ## C8 — vṛddhi on the a-series -/

set_option synthInstance.maxSize 2000 in
set_option maxRecDepth 10000 in
/-- **C8.** For every svara byte in the a-series (`S = 00`), `vrddhi`
succeeds and returns ā: quantity dīrgha (`Q = 10`), grade vṛddhi
(`G = 10`), series still the a-series (`S = 00`), accent copied from the
input. -/
theorem vrddhi_a_series (b : Nat) (hb : b < 256)
    (hs : isSvara b = true) (hser : svaraS b = 0) :
    transformFields (vrddhi b) = some (2, svaraA b, 0, 2) := by
  revert b; decide

/-- Witness for C8 at plain a (`0x40`), whose vṛddhi is ā (`0x82`). -/
theorem vrddhi_a_series_witness :
    transformFields (vrddhi 0x40) = some (2, svaraA 0x40, 0, 2) :=
  vrddhi_a_series 0x40 (by decide) (by decide) (by decide)

/-! ## C9 — Devanāgarī rendering -/

/-- **C9.** Decoding the encodings of "ka", "ki", "kṛ" to Devanāgarī
yields exactly "क", "कि", "कृ": the consonant fuses with the vowel via
the mātrā (no glyph at all for inherent short a) and no virāma appears
in the output. -/
theorem devanagari_ka_ki_kr :
    roundTrip "ka".data Script.devanagari = .ok (.ok "क".data) ∧
    roundTrip "ki".data Script.devanagari = .ok (.ok "कि".data) ∧
    roundTrip "kṛ".data Script.devanagari = .ok (.ok "कृ".data) ∧
    '्' ∉ "क".data ∧ '्' ∉ "कि".data ∧ '्' ∉ "कृ".data := by
  decide

/-! ## C6 — ULEB128 decoder classification -/

/-- **C6.** `read_uleb128` reads at most 5 groups; (a) every stream with
no clear continuation bit among the first five groups is rejected with
an error distinct from the 32-bit overflow error; (b) every stream whose
first terminating group is at index `j < 5` but whose value exceeds the
32-bit range is rejected with the overflow error; (c) otherwise the
value and the consumed byte count `j + 1 ≤ 5` are returned. -/
theorem read_uleb128_classification (data : List Nat) :
    ((∀ m, m < data.length → m < 5 → data.getD m 0 &&& 0x80 ≠ 0) →
      ∃ e, readUleb128 data = .error e ∧ e ≠ "ULEB128 value exceeds u32 range") ∧
    (∀ j, j < data.length → j < 5 →
      (∀ m, m < j → data.getD m 0 &&& 0x80 ≠ 0) →
      data.getD j 0 &&& 0x80 = 0 →
      (0xFFFFFFFF < ulebValue (data.take (j + 1)) →
        readUleb128 data = .error "ULEB128 value exceeds u32 range") ∧
      (ulebValue (data.take (j + 1)) ≤ 0xFFFFFFFF →
        readUleb128 data = .ok (ulebValue (data.take (j + 1)), j + 1) ∧ j + 1 ≤ 5)) := by
  constructor
  · intro h
    rcases readUleb128Go_no_term data 0 0 0 (fun m hm h5 => h m hm (by omega)) with he | he
    · exact ⟨_, he, by decide⟩
    · exact ⟨_, he, by decide⟩
  · intro j hj hj5 hcont hterm
    have key := readUleb128Go_term j data 0 0 hj (by omega) hcont hterm (by norm_num)
    constructor
    · intro hover
      have hk := key.1 (by simpa using hover)
      simpa [readUleb128] using hk
    · intro hle
      refine ⟨?_, by omega⟩
      have hk := key.2 (by simpa using hle)
      simpa [readUleb128] using hk

/-- Witness for C6 part (c) at the two-byte encoding of 300. -/
theorem read_uleb128_classification_witness : readUleb128 [0xAC, 0x02] = .ok (300, 2) := by
  have h := ((read_uleb128_classification [0xAC, 0x02]).2 1 (by decide) (by decide)
    (by decide) (by decide)).2 (by decide)
  exact h.1

/-! ## C10 — parsing without an EOF chunk -/

/-- **C10 (counterexample).** The claim says every input with a valid
14-byte header (length ≥ 14, magic `SLBC`) parses to `Ok` even with no
EOF chunk present.  The 16-byte input below has a valid header and no
EOF-type byte anywhere, yet `parse_slbc` fails: its single chunk has a
truncated ULEB128 length. -/
theorem parse_slbc_fails_without_eof_on_bad_chunk :
    14 ≤ [0x53, 0x4C, 0x42, 0x43, 0, 0, 0, 0, 0, 0, 0, 0, 0, 0, 0x01, 0x80].length ∧
    [0x53, 0x4C, 0x42, 0x43, 0, 0, 0, 0, 0, 0, 0, 0, 0, 0, 0x01, 0x80].take 4 = MAGIC ∧
    CHUNK_EOF ∉ [0x53, 0x4C, 0x42, 0x43, 0, 0, 0, 0, 0, 0, 0, 0, 0, 0, 0x01, 0x80] ∧
    parseSlbc [0x53, 0x4C, 0x42, 0x43, 0, 0, 0, 0, 0, 0, 0, 0, 0, 0, 0x01, 0x80]
      = .error "chunk length ULEB128 error at offset 15: truncated ULEB128" := by
  decide

/-- **C10 (amended).** `parse_slbc` does not require an EOF chunk: for
every input whose 14-byte header is valid (length ≥ 14, magic `SLBC`)
and whose extended-header length carries the cursor to or past the end
of the buffer — in particular every bare 14-byte header — parsing
returns `Ok` with an empty chunk list. -/
theorem parse_slbc_ok_without_eof (data : List Nat)
    (h14 : 14 ≤ data.length) (hmag : data.take 4 = MAGIC)
    (hext : data.length ≤ 14 + (data.getD 12 0 + 256 * data.getD 13 0)) :
    ∃ hdr, parseSlbc data = .ok (hdr, []) := by
  refine ⟨⟨(data.drop 4).take 4, data.getD 11 0, data.getD 12 0 + 256 * data.getD 13 0⟩, ?_⟩
  unfold parseSlbc
  rw [if_neg (by omega), if_neg (by simp [hmag])]
  have hchunks : parseChunks data (data.length + 1)
      (14 + (data.getD 12 0 + 256 * data.getD 13 0)) [] = .ok [] := by
    unfold parseChunks
    rw [if_neg (by omega)]
  simp only [hchunks]

/-- Witness for the amended C10 at a bare 14-byte header. -/
theorem parse_slbc_ok_without_eof_witness :
    ∃ hdr, parseSlbc [0x53, 0x4C, 0x42, 0x43, 0, 0, 0, 0x0A, 0, 0, 0, 0xE0, 0, 0]
      = .ok (hdr, []) :=
  parse_slbc_ok_without_eof _ (by decide) (by decide) (by decide)

end SlbcClaims

namespace Slbc

theorem buildSlbc_eq (p : List Nat) :
    buildSlbc p = [0x53, 0x4C, 0x42, 0x43, 0x00, 0x00, 0x00, 0x0A, 0x00, 0x00, 0x00, 0xE0,
      0x00, 0x00] ++ 0x01 :: (writeUleb128 p.length ++ (p ++ [0xFF, 0x00])) := by
  simp [buildSlbc, buildHeader, writeChunk, writeEof, MAGIC, VERSION,
    FLAG_HAS_LIPI, FLAG_HAS_META, FLAG_INTERLEAVED, CHUNK_PHON, CHUNK_EOF]

theorem parseChunks_step (data : List Nat) (fuel pos : Nat) (chunks : List Chunk)
    (hpos : pos < data.length) :
    parseChunks data (fuel + 1) pos chunks
      = match readUleb128 (data.drop (pos + 1)) with
        | .error e =>
          .error ("chunk length ULEB128 error at offset " ++ toString (pos + 1) ++ ": " ++ e)
        | .ok (payloadLen, consumed) =>
          if pos + 1 + consumed + payloadLen > data.length then
            .error ("chunk payload extends beyond file (offset " ++ toString (pos + 1 + consumed)
              ++ ", len " ++ toString payloadLen ++ ")")
          else
            if data.getD pos 0 = CHUNK_EOF then
              .ok (chunks ++ [⟨data.getD pos 0, (data.drop (pos + 1 + consumed)).take payloadLen⟩])
            else parseChunks data fuel (pos + 1 + consumed + payloadLen)
              (chunks ++ [⟨data.getD pos 0, (data.drop (pos + 1 + consumed)).take payloadLen⟩]) := by
  have h : parseChunks data (fuel + 1) pos chunks
      = if pos < data.length then
          (match readUleb128 (data.drop (pos + 1)) with
          | .error e =>
            .error ("chunk length ULEB128 error at offset " ++ toString (pos + 1) ++ ": " ++ e)
          | .ok (payloadLen, consumed) =>
            if pos + 1 + consumed + payloadLen > data.length then
              .error ("chunk payload extends beyond file (offset " ++ toString (pos + 1 + consumed)
                ++ ", len " ++ toString payloadLen ++ ")")
            else
              if data.getD pos 0 = CHUNK_EOF then
                .ok (chunks ++ [⟨data.getD pos 0, (data.drop (pos + 1 + consumed)).take payloadLen⟩])
              else parseChunks data fuel (pos + 1 + consumed + payloadLen)
                (chunks ++ [⟨data.getD pos 0, (data.drop (pos + 1 + consumed)).take payloadLen⟩]))
        else .ok chunks := rfl
  rw [h, if_pos hpos]

theorem parseSlbc_literal_header (tail : List Nat) :
    parseSlbc ([0x53, 0x4C, 0x42, 0x43, 0x00, 0x00, 0x00, 0x0A, 0x00, 0x00, 0x00, 0xE0,
        0x00, 0x00] ++ tail)
      = match parseChunks ([0x53, 0x4C, 0x42, 0x43, 0x00, 0x00, 0x00, 0x0A, 0x00, 0x00, 0x00,
          0xE0, 0x00, 0x00] ++ tail) (14 + tail.length + 1) 14 [] with
        | .error e => .error e
        | .ok chunks => .ok (⟨[0x00, 0x00, 0x00, 0x0A], 0xE0, 0⟩, chunks) := by
  have hlen : ([0x53, 0x4C, 0x42, 0x43, 0x00, 0x00, 0x00, 0x0A, 0x00, 0x00, 0x00, 0xE0,
      0x00, 0x00] ++ tail).length = 14 + tail.length := by
    simp
    omega
  unfold parseSlbc
  rw [if_neg (by simp), if_neg (by simp [MAGIC])]
  rw [hlen]
  norm_num [List.getD]

theorem parseChunks_buildSlbc (p : List Nat) (hp : p.length < 2 ^ 32) :
    parseChunks ([0x53, 0x4C, 0x42, 0x43, 0x00, 0x00, 0x00, 0x0A, 0x00, 0x00, 0x00, 0xE0,
        0x00, 0x00] ++ 0x01 :: (writeUleb128 p.length ++ (p ++ [0xFF, 0x00])))
      (14 + (0x01 :: (writeUleb128 p.length ++ (p ++ [0xFF, 0x00]))).length + 1) 14 []
      = .ok [⟨CHUNK_PHON, p⟩, ⟨CHUNK_EOF, []⟩] := by
  have hread := readUleb128_writeUleb128 p.length (by omega) (p ++ [0xFF, 0x00])
  set L : List Nat := [0x53, 0x4C, 0x42, 0x43, 0x00, 0x00, 0x00, 0x0A, 0x00, 0x00, 0x00, 0xE0,
    0x00, 0x00] with hL
  set w := writeUleb128 p.length with hwdef
  set data := L ++ 0x01 :: (w ++ (p ++ [0xFF, 0x00])) with hdata
  have hdatalen : data.length = 17 + w.length + p.length := by
    rw [hdata]; simp [hL]; omega
  have hd14 : data.getD 14 0 = 0x01 := by
    rw [hdata, List.getD_append_right _ _ _ _ (by simp [hL])]
    simp [hL]
  have hdrop15 : data.drop (14 + 1) = w ++ (p ++ [0xFF, 0x00]) := by
    rw [hdata, show (14 : Nat) + 1 = L.length + 1 from by simp [hL], List.drop_append]
    simp
  have hdroppay : data.drop (14 + 1 + w.length) = p ++ [0xFF, 0x00] := by
    have hre : data = (L ++ 0x01 :: w) ++ (p ++ [0xFF, 0x00]) := by rw [hdata]; simp
    rw [hre, show 14 + 1 + w.length = (L ++ 0x01 :: w).length from by simp [hL]; omega,
      List.drop_left]
  have hd2 : data.getD (14 + 1 + w.length + p.length) 0 = 0xFF := by
    have hre : data = ((L ++ 0x01 :: w) ++ p) ++ [0xFF, 0x00] := by rw [hdata]; simp
    rw [hre, List.getD_append_right _ _ _ _ (by simp [hL]; omega)]
    have he : 14 + 1 + w.length + p.length - ((L ++ 0x01 :: w) ++ p).length = 0 := by
      simp [hL]; omega
    rw [he]
    rfl
  have hdrop2 : data.drop (14 + 1 + w.length + p.length + 1) = [0x00] := by
    have hre : data = ((L ++ 0x01 :: w) ++ p ++ [0xFF]) ++ [0x00] := by rw [hdata]; simp
    rw [hre, show 14 + 1 + w.length + p.length + 1 = ((L ++ 0x01 :: w) ++ p ++ [0xFF]).length
      from by simp [hL]; omega, List.drop_left]
  rw [parseChunks_step data _ 14 [] (by omega)]
  rw [hdrop15, hread.1]
  simp only []
  have htake : (p ++ [0xFF, 0x00]).take p.length = p := List.take_left p [0xFF, 0x00]
  rw [if_neg (by omega), hd14, if_neg (by decide), hdroppay, htake]
  rw [show 14 + (0x01 :: (w ++ (p ++ [0xFF, 0x00]))).length = (16 + w.length + p.length) + 1
    from by simp; omega]
  rw [parseChunks_step data _ _ _ (by omega)]
  rw [hdrop2, show readUleb128 [0x00] = .ok (0, 1) from rfl]
  simp only []
  rw [if_neg (by omega), hd2, if_pos (by rfl)]
  simp [CHUNK_PHON, CHUNK_EOF]

theorem readUleb128Go_cons (b : Nat) (rest : List Nat) (i shift result : Nat) :
    readUleb128Go (b :: rest) i shift result
      = if i ≥ 5 then .error "ULEB128 exceeds 5 bytes (max u32)"
        else
          if b &&& 0x80 = 0 then
            if result ||| ((b &&& 0x7F) <<< shift) > 0xFFFFFFFF then
              .error "ULEB128 value exceeds u32 range"
            else .ok (result ||| ((b &&& 0x7F) <<< shift), i + 1)
          else readUleb128Go rest (i + 1) (shift + 7) (result ||| ((b &&& 0x7F) <<< shift)) := rfl

/-- The five-byte encoding of `2 ^ 32` terminates in range but its value
exceeds `u32::MAX`, so the reader rejects it whatever follows. -/
theorem readUleb128_two_pow_32 (rest : List Nat) :
    readUleb128 ([0x80, 0x80, 0x80, 0x80, 0x10] ++ rest)
      = .error "ULEB128 value exceeds u32 range" := by
  show readUleb128Go (0x80 :: 0x80 :: 0x80 :: 0x80 :: 0x10 :: rest) 0 0 0 = _
  rw [readUleb128Go_cons, if_neg (by norm_num), if_neg (by decide)]
  rw [readUleb128Go_cons, if_neg (by norm_num), if_neg (by decide)]
  rw [readUleb128Go_cons, if_neg (by norm_num), if_neg (by decide)]
  rw [readUleb128Go_cons, if_neg (by norm_num), if_neg (by decide)]
  rw [readUleb128Go_cons, if_neg (by norm_num), if_pos (by decide), if_pos (by decide)]

end Slbc

namespace SlbcClaims
open Slbc

/-! ## C3 — container round trip -/

/-- **C3 (counterexample).** The claim quantifies over *every* payload
vector.  At a payload of `2 ^ 32` bytes the chunk length is written as a
five-group ULEB128 whose value exceeds `u32::MAX`, which the parser
rejects: `parse_container(build_container(p))` fails. -/
theorem container_round_trip_fails_at_u32_boundary :
    ∃ e, parseSlbc (buildSlbc (List.replicate (2 ^ 32) 0)) = .error e := by
  rw [buildSlbc_eq, parseSlbc_literal_header]
  have hgen : ∀ w q : List Nat, (14 : Nat) < ([0x53, 0x4C, 0x42, 0x43, 0x00, 0x00, 0x00,
      0x0A, 0x00, 0x00, 0x00, 0xE0, 0x00, 0x00] ++ 0x01 :: (w ++ (q ++ [0xFF, 0x00]))).length := by
    intro w q
    simp only [List.length_append, List.length_cons, List.length_nil]
    omega
  have hpos := hgen (writeUleb128 (List.replicate (2 ^ 32) (0 : Nat)).length)
    (List.replicate (2 ^ 32) (0 : Nat))
  rw [parseChunks_step _ _ 14 [] hpos]
  have hw32 : writeUleb128 (List.replicate (2 ^ 32) (0 : Nat)).length
      = [0x80, 0x80, 0x80, 0x80, 0x10] := by
    rw [List.length_replicate]
    decide
  have hdrop : ([0x53, 0x4C, 0x42, 0x43, 0x00, 0x00, 0x00, 0x0A, 0x00, 0x00, 0x00, 0xE0,
        0x00, 0x00] ++ 0x01 :: (writeUleb128 (List.replicate (2 ^ 32) (0 : Nat)).length
        ++ (List.replicate (2 ^ 32) (0 : Nat) ++ [0xFF, 0x00]))).drop (14 + 1)
      = writeUleb128 (List.replicate (2 ^ 32) (0 : Nat)).length
        ++ (List.replicate (2 ^ 32) (0 : Nat) ++ [0xFF, 0x00]) := by
    rw [show (14 : Nat) + 1
        = ([0x53, 0x4C, 0x42, 0x43, 0x00, 0x00, 0x00, 0x0A, 0x00, 0x00, 0x00, 0xE0,
          0x00, 0x00] : List Nat).length + 1 from by simp, List.drop_append]
    rw [List.drop_succ_cons, List.drop_zero]
  rw [hdrop, hw32, readUleb128_two_pow_32]
  exact ⟨_, rfl⟩

/-- **C3 (amended).** For every payload of fewer than `2 ^ 32` bytes,
`parse_container(build_container(p))` succeeds with a header whose
HAS_LIPI flag is set and exactly two chunks: a PHON chunk carrying `p`,
then the EOF chunk. -/
theorem container_round_trip (p : List Nat) (hp : p.length < 2 ^ 32) :
    ∃ hdr : SlbcHeader,
      parseSlbc (buildSlbc p) = .ok (hdr, [⟨CHUNK_PHON, p⟩, ⟨CHUNK_EOF, []⟩])
        ∧ hdr.hasLipi = true := by
  refine ⟨⟨[0x00, 0x00, 0x00, 0x0A], 0xE0, 0⟩, ?_, by decide⟩
  rw [buildSlbc_eq, parseSlbc_literal_header, parseChunks_buildSlbc p hp]

/-- Witness for the amended C3 at the payload for "ka". -/
theorem container_round_trip_witness :
    ∃ hdr : SlbcHeader,
      parseSlbc (buildSlbc [0x26, 0x00, 0x40, 0x2E])
        = .ok (hdr, [⟨CHUNK_PHON, [0x26, 0x00, 0x40, 0x2E]⟩, ⟨CHUNK_EOF, []⟩])
          ∧ hdr.hasLipi = true :=
  container_round_trip [0x26, 0x00, 0x40, 0x2E] (by norm_num)

end SlbcClaims

namespace Slbc

theorem tokenStep_decomp (out : List Nat) (ip : Bool) (t : Token) :
    tokenStep (out, ip) t = (out ++ segBytes t ip, nextPada t ip) := by
  cases t <;> simp [tokenStep, segBytes, nextPada]

theorem tokensToBytes_eq_aux_general :
    ∀ (ts : List Token) (out : List Nat) (ip : Bool),
      (let st := ts.foldl tokenStep (out, ip)
       st.1 ++ (if st.2 then [PADA_END] else [])) = out ++ tokensToBytesAux ts ip
  | [], out, ip => by simp [tokensToBytesAux]
  | t :: ts, out, ip => by
    show (let st := List.foldl tokenStep (tokenStep (out, ip) t) ts
      st.1 ++ (if st.2 then [PADA_END] else [])) = _
    rw [tokenStep_decomp]
    rw [tokensToBytes_eq_aux_general ts (out ++ segBytes t ip) (nextPada t ip)]
    simp [tokensToBytesAux]

theorem tokensToBytes_eq_aux (ts : List Token) :
    tokensToBytes ts = tokensToBytesAux ts false := by
  have h := tokensToBytes_eq_aux_general ts [] false
  simpa [tokensToBytes] using h

theorem encodeNumeral_eq (digits : List Char) :
    encodeNumeral digits
      = sankhyaSpan (digits.map charToDigit) ++ NUM :: digits.map charToDigit := by
  simp [encodeNumeral, sankhyaSpan]

theorem digitChar_charToDigit {c : Char} (h : c.isDigit = true) :
    digitChar (charToDigit c) = c := by
  simp [Char.isDigit, Char.le_def] at h
  obtain ⟨h1, h2⟩ := h
  have h1n : (48 : Nat) ≤ c.val.toNat := h1
  have hv : c.toNat = c.val.toNat := rfl
  have he : 48 + (c.toNat - 48) = c.toNat := by rw [hv]; omega
  show Char.ofNat (48 + (c.toNat - 48)) = c
  rw [he, Char.ofNat_toNat]

theorem charToDigit_lt_10 {c : Char} (h : c.isDigit = true) : charToDigit c < 10 := by
  simp [Char.isDigit, Char.le_def] at h
  obtain ⟨h1, h2⟩ := h
  have h2n : c.val.toNat ≤ (57 : Nat) := h2
  have hv : charToDigit c = c.val.toNat - 48 := rfl
  omega

theorem render_digits {s : List Char} (h : s.all Char.isDigit = true) :
    (s.map charToDigit).map digitChar = s := by
  induction s with
  | nil => rfl
  | cons c rest ih =>
    simp only [List.all_cons, Bool.and_eq_true] at h
    simp only [List.map_cons]
    rw [digitChar_charToDigit h.1, ih h.2]

theorem digitWord_no_padaEnd : ∀ d, d < 10 → ∀ x ∈ digitWord d, x ≠ PADA_END := by
  decide

theorem lookupDigitWord_self : ∀ d, d < 10 → lookupDigitWord (digitWord d) = some d := by
  decide

theorem takeWhile_word (w rest : List Nat) (hw : ∀ x ∈ w, x ≠ PADA_END) :
    (w ++ PADA_END :: rest).takeWhile (fun x => x ≠ PADA_END) = w := by
  induction w with
  | nil => simp [List.takeWhile]
  | cons a w' ih =>
    have ha : a ≠ PADA_END := hw a (by simp)
    simp only [List.cons_append, List.takeWhile_cons]
    rw [if_pos (by simpa using ha)]
    rw [ih (fun x hx => hw x (by simp [hx]))]

theorem takeWhile_lt16 (w rest : List Nat) (hw : ∀ x ∈ w, x < 0x10)
    (hrest : rest = [] ∨ ∃ b r, rest = b :: r ∧ 0x10 ≤ b) :
    (w ++ rest).takeWhile (fun x => x < 0x10) = w := by
  induction w with
  | nil =>
    rcases hrest with h | ⟨b, r, rfl, hb⟩
    · simp [h]
    · simp only [List.nil_append, List.takeWhile_cons]
      rw [if_neg (by simpa using Nat.not_lt.mpr hb)]
  | cons a w' ih =>
    have ha : a < 0x10 := hw a (by simp)
    simp only [List.cons_append, List.takeWhile_cons]
    rw [if_pos (by simpa using ha)]
    rw [ih (fun x hx => hw x (by simp [hx]))]

theorem decodeIastAux_step (data : List Nat) (fuel i : Nat) (h : i < data.length) :
    decodeIastAux data (fuel + 1) i
      = (if isBhashaControl (data.getD i 0) then
          if data.getD i 0 = PADA_START ∨ data.getD i 0 = PADA_END
              ∨ data.getD i 0 = PHON_START ∨ data.getD i 0 = PHON_END then
            decodeIastAux data fuel (i + 1)
          else if data.getD i 0 = META_START then
            decodeIastAux data fuel
              (i + 1 + ((data.drop (i + 1)).takeWhile (fun x => x ≠ META_END)).length + 1)
          else if data.getD i 0 = SANKHYA_START then
            match decodeSankhya data i with
            | .error e => .error e
            | .ok (digits, consumed) =>
              if i + consumed < data.length ∧ data.getD (i + consumed) 0 = NUM then
                match decodeNum data (i + consumed) with
                | .error e => .error e
                | .ok (_, numConsumed) =>
                  (decodeIastAux data fuel (i + consumed + numConsumed)).map
                    (fun rest => digits.map digitChar ++ rest)
              else
                (decodeIastAux data fuel (i + consumed)).map
                  (fun rest => digits.map digitChar ++ rest)
          else decodeIastAux data fuel (i + 1)
        else if isLipiControl (data.getD i 0) then
          if data.getD i 0 = NUM then
            match decodeNum data i with
            | .error e => .error e
            | .ok (digits, consumed) =>
              (decodeIastAux data fuel (i + consumed)).map
                (fun rest => digits.map digitChar ++ rest)
          else
            (decodeIastAux data fuel (i + 1)).map
              (fun rest => lipiIastChars (data.getD i 0) ++ rest)
        else if isSvara (data.getD i 0) then
          (decodeIastAux data fuel (i + 1)).map (fun rest => byteToIast (data.getD i 0) ++ rest)
        else if isVyanjana (data.getD i 0) then
          (decodeIastAux data fuel (i + 1)).map (fun rest => byteToIast (data.getD i 0) ++ rest)
        else
          .error (.msg ("unexpected byte " ++ toString (data.getD i 0) ++ " at offset "
            ++ toString i))) := by
  have hu : decodeIastAux data (fuel + 1) i = if i < data.length then _ else .ok [] := rfl
  rw [hu, if_pos h]

theorem not_bhasha_of_svara {b : Nat} (h : isSvara b = true) : ¬ isBhashaControl b = true := by
  simp [isSvara] at h
  simp [isBhashaControl, h]

theorem not_lipi_of_svara {b : Nat} (h : isSvara b = true) : ¬ isLipiControl b = true := by
  simp [isSvara] at h
  simp [isLipiControl, h]

theorem not_bhasha_of_vyanjana {b : Nat} (h : isVyanjana b = true) :
    ¬ isBhashaControl b = true := by
  simp [isVyanjana] at h
  simp [isBhashaControl, h.1]
  omega

theorem not_lipi_of_vyanjana {b : Nat} (h : isVyanjana b = true) :
    ¬ isLipiControl b = true := by
  simp [isVyanjana] at h
  simp [isLipiControl, h.1]
  omega

theorem not_svara_of_vyanjana {b : Nat} (h : isVyanjana b = true) :
    ¬ isSvara b = true := by
  simp [isVyanjana] at h
  simp [isSvara, h.1]

theorem not_bhasha_of_lipi {b : Nat} (h : isLipiControl b = true) :
    ¬ isBhashaControl b = true := by
  simp [isLipiControl] at h
  simp [isBhashaControl, h.1]
  omega

theorem getD_boundary (pre : List Nat) (b : Nat) (rest : List Nat) :
    (pre ++ b :: rest).getD pre.length 0 = b := by
  rw [List.getD_append_right _ _ _ _ (le_refl _)]
  simp

theorem length_boundary (pre : List Nat) (b : Nat) (rest : List Nat) :
    pre.length < (pre ++ b :: rest).length := by
  simp

theorem decIast_structural {c : Nat}
    (hc : c = PADA_START ∨ c = PADA_END ∨ c = PHON_START ∨ c = PHON_END)
    (pre rest : List Nat) (fuel : Nat) :
    decodeIastAux (pre ++ c :: rest) (fuel + 1) pre.length
      = decodeIastAux (pre ++ c :: rest) fuel (pre.length + 1) := by
  rw [decodeIastAux_step _ _ _ (length_boundary pre c rest), getD_boundary]
  rw [if_pos (by rcases hc with h | h | h | h <;> subst h <;> decide), if_pos hc]

theorem decIast_svara {b : Nat} (hb : isSvara b = true) (pre rest : List Nat) (fuel : Nat) :
    decodeIastAux (pre ++ b :: rest) (fuel + 1) pre.length
      = (decodeIastAux (pre ++ b :: rest) fuel (pre.length + 1)).map
          (fun r => byteToIast b ++ r) := by
  rw [decodeIastAux_step _ _ _ (length_boundary pre b rest), getD_boundary]
  rw [if_neg (not_bhasha_of_svara hb), if_neg (not_lipi_of_svara hb), if_pos hb]

theorem decIast_vyanjana {b : Nat} (hb : isVyanjana b = true) (pre rest : List Nat) (fuel : Nat) :
    decodeIastAux (pre ++ b :: rest) (fuel + 1) pre.length
      = (decodeIastAux (pre ++ b :: rest) fuel (pre.length + 1)).map
          (fun r => byteToIast b ++ r) := by
  rw [decodeIastAux_step _ _ _ (length_boundary pre b rest), getD_boundary]
  rw [if_neg (not_bhasha_of_vyanjana hb), if_neg (not_lipi_of_vyanjana hb),
    if_neg (not_svara_of_vyanjana hb), if_pos hb]

theorem decIast_lipi {b : Nat} (hb : isLipiControl b = true) (hnum : b ≠ NUM)
    (pre rest : List Nat) (fuel : Nat) :
    decodeIastAux (pre ++ b :: rest) (fuel + 1) pre.length
      = (decodeIastAux (pre ++ b :: rest) fuel (pre.length + 1)).map
          (fun r => lipiIastChars b ++ r) := by
  rw [decodeIastAux_step _ _ _ (length_boundary pre b rest), getD_boundary]
  rw [if_neg (not_bhasha_of_lipi hb), if_pos hb, if_neg hnum]

theorem sankhyaSpan_eq (ds : List Nat) :
    sankhyaSpan ds = SANKHYA_START :: (writeUleb128 ds.length ++ padasOf ds.reverse) := rfl

theorem padasOf_cons (d : Nat) (l : List Nat) :
    padasOf (d :: l) = PADA_START :: digitWord d ++ PADA_END :: padasOf l := rfl

theorem sankhyaPadas_step (data : List Nat) (count i : Nat) (acc : List Nat)
    (h : i < data.length) :
    sankhyaPadas data (count + 1) i acc
      = if data.getD i 0 ≠ PADA_START then
          .error (.msg ("expected PADA_START at offset " ++ toString i))
        else
          if ((data.drop (i + 1)).takeWhile (fun x => x ≠ PADA_END)).length
              = (data.drop (i + 1)).length then
            .error (.msg "unterminated digit-pada")
          else
            match lookupDigitWord ((data.drop (i + 1)).takeWhile (fun x => x ≠ PADA_END)) with
            | none => .error (.msg ("invalid digit-word at offset " ++ toString (i + 1)))
            | some d =>
              sankhyaPadas data count
                (i + 1 + ((data.drop (i + 1)).takeWhile (fun x => x ≠ PADA_END)).length + 1)
                (acc ++ [d]) := by
  have hu : sankhyaPadas data (count + 1) i acc
      = if i < data.length then _ else .error .panicked := rfl
  rw [hu, if_pos h]

theorem sankhyaPadas_enc :
    ∀ (l : List Nat), (∀ d ∈ l, d < 10) →
    ∀ (pre2 tail acc : List Nat),
      sankhyaPadas (pre2 ++ (padasOf l ++ tail)) l.length pre2.length acc
        = .ok (acc ++ l, pre2.length + (padasOf l).length)
  | [], _, pre2, tail, acc => by
    show sankhyaPadas (pre2 ++ (padasOf [] ++ tail)) 0 pre2.length acc = _
    simp [sankhyaPadas, padasOf]
  | d :: l, h10, pre2, tail, acc => by
    have hd10 : d < 10 := h10 d (by simp)
    have hw := digitWord_no_padaEnd d hd10
    have hre : pre2 ++ (padasOf (d :: l) ++ tail)
        = pre2 ++ PADA_START :: (digitWord d ++ PADA_END :: (padasOf l ++ tail)) := by
      rw [padasOf_cons]
      simp
    have hlen : pre2.length < (pre2 ++ (padasOf (d :: l) ++ tail)).length := by
      rw [hre]
      exact length_boundary pre2 _ _
    show sankhyaPadas (pre2 ++ (padasOf (d :: l) ++ tail)) (l.length + 1) pre2.length acc = _
    rw [sankhyaPadas_step _ _ _ _ hlen]
    have hgd : (pre2 ++ (padasOf (d :: l) ++ tail)).getD pre2.length 0 = PADA_START := by
      rw [hre]
      exact getD_boundary pre2 _ _
    rw [hgd, if_neg (by simp)]
    have hdrop : (pre2 ++ (padasOf (d :: l) ++ tail)).drop (pre2.length + 1)
        = digitWord d ++ PADA_END :: (padasOf l ++ tail) := by
      rw [hre, show pre2.length + 1 = (pre2 ++ [PADA_START]).length from by simp,
        show pre2 ++ PADA_START :: (digitWord d ++ PADA_END :: (padasOf l ++ tail))
          = (pre2 ++ [PADA_START]) ++ (digitWord d ++ PADA_END :: (padasOf l ++ tail))
          from by simp, List.drop_left]
    rw [hdrop, takeWhile_word _ _ hw]
    rw [if_neg (by simp)]
    rw [lookupDigitWord_self d hd10]
    show sankhyaPadas _ l.length _ (acc ++ [d]) = _
    have hre2 : pre2 ++ (padasOf (d :: l) ++ tail)
        = (pre2 ++ PADA_START :: (digitWord d ++ [PADA_END])) ++ (padasOf l ++ tail) := by
      rw [hre]
      simp
    have hlen2 : pre2.length + 1 + (digitWord d).length + 1
        = (pre2 ++ PADA_START :: (digitWord d ++ [PADA_END])).length := by
      simp
      omega
    rw [hlen2]
    have ih := sankhyaPadas_enc l (fun x hx => h10 x (by simp [hx]))
      (pre2 ++ PADA_START :: (digitWord d ++ [PADA_END])) tail (acc ++ [d])
    rw [hre2, ih]
    have e1 : acc ++ [d] ++ l = acc ++ d :: l := by simp
    have e2 : (pre2 ++ PADA_START :: (digitWord d ++ [PADA_END])).length + (padasOf l).length
        = pre2.length + (padasOf (d :: l)).length := by
      simp [padasOf_cons]
      omega
    rw [e1, e2]

theorem decodeNum_enc (ds : List Nat) (h16 : ∀ d ∈ ds, d < 0x10) (pre tail : List Nat)
    (htail : tail = [] ∨ ∃ b r, tail = b :: r ∧ 0x10 ≤ b) :
    decodeNum (pre ++ (NUM :: (ds ++ tail))) pre.length = .ok (ds, 1 + ds.length) := by
  unfold decodeNum
  rw [if_pos (length_boundary pre _ _), getD_boundary, if_neg (by simp)]
  have hdrop : (pre ++ (NUM :: (ds ++ tail))).drop (pre.length + 1) = ds ++ tail := by
    rw [show pre ++ (NUM :: (ds ++ tail)) = (pre ++ [NUM]) ++ (ds ++ tail) from by simp,
      show pre.length + 1 = (pre ++ [NUM]).length from by simp, List.drop_left]
  rw [hdrop, takeWhile_lt16 ds tail h16 htail]

theorem decodeSankhya_enc (ds : List Nat) (h10 : ∀ d ∈ ds, d < 10)
    (hlen : ds.length ≤ 0xFFFFFFFF) (pre tail : List Nat) :
    decodeSankhya (pre ++ (sankhyaSpan ds ++ tail)) pre.length
      = .ok (ds, (sankhyaSpan ds).length) := by
  have hre : pre ++ (sankhyaSpan ds ++ tail)
      = pre ++ SANKHYA_START :: (writeUleb128 ds.length ++ (padasOf ds.reverse ++ tail)) := by
    rw [sankhyaSpan_eq]
    simp
  unfold decodeSankhya
  rw [if_pos (by rw [hre]; exact length_boundary pre _ _)]
  rw [show (pre ++ (sankhyaSpan ds ++ tail)).getD pre.length 0 = SANKHYA_START from by
    rw [hre]; exact getD_boundary pre _ _]
  rw [if_neg (by simp)]
  have hdrop : (pre ++ (sankhyaSpan ds ++ tail)).drop (pre.length + 1)
      = writeUleb128 ds.length ++ (padasOf ds.reverse ++ tail) := by
    rw [hre, show pre ++ SANKHYA_START :: (writeUleb128 ds.length ++ (padasOf ds.reverse ++ tail))
        = (pre ++ [SANKHYA_START]) ++ (writeUleb128 ds.length ++ (padasOf ds.reverse ++ tail))
        from by simp,
      show pre.length + 1 = (pre ++ [SANKHYA_START]).length from by simp, List.drop_left]
  rw [hdrop, (readUleb128_writeUleb128 ds.length hlen (padasOf ds.reverse ++ tail)).1]
  have hpos2 : pre.length + 1 + (writeUleb128 ds.length).length
      = (pre ++ SANKHYA_START :: writeUleb128 ds.length).length := by
    simp
    omega
  have hre2 : pre ++ (sankhyaSpan ds ++ tail)
      = (pre ++ SANKHYA_START :: writeUleb128 ds.length) ++ (padasOf ds.reverse ++ tail) := by
    rw [hre]
    simp
  have hcount : ds.length = ds.reverse.length := by simp
  show (match sankhyaPadas (pre ++ (sankhyaSpan ds ++ tail)) ds.length
      (pre.length + 1 + (writeUleb128 ds.length).length) [] with
    | Except.error e => Except.error e
    | Except.ok (digits, iFinal) => Except.ok (digits.reverse, iFinal - pre.length)) = _
  rw [hpos2, hre2, hcount,
    sankhyaPadas_enc ds.reverse (fun x hx => h10 x (by simpa using hx)) _ tail []]
  have e1 : ([] ++ ds.reverse).reverse = ds := by simp
  have e2 : (pre ++ SANKHYA_START :: writeUleb128 ds.reverse.length).length
        + (padasOf ds.reverse).length - pre.length
      = (sankhyaSpan ds).length := by
    rw [sankhyaSpan_eq]
    simp
    omega
  show Except.ok (([] ++ ds.reverse).reverse, _) = _
  rw [e1, e2]

theorem decIast_numeral (ds : List Nat) (h10 : ∀ d ∈ ds, d < 10)
    (hlen : ds.length ≤ 0xFFFFFFFF) (pre rest : List Nat) (fuel : Nat)
    (hrest : rest = [] ∨ ∃ b r, rest = b :: r ∧ 0x10 ≤ b) :
    decodeIastAux (pre ++ ((sankhyaSpan ds ++ NUM :: ds) ++ rest)) (fuel + 1) pre.length
      = (decodeIastAux (pre ++ ((sankhyaSpan ds ++ NUM :: ds) ++ rest)) fuel
          (pre.length + (sankhyaSpan ds).length + (1 + ds.length))).map
          (fun r => ds.map digitChar ++ r) := by
  have hre : pre ++ ((sankhyaSpan ds ++ NUM :: ds) ++ rest)
      = pre ++ (sankhyaSpan ds ++ (NUM :: (ds ++ rest))) := by simp
  have hre1 : pre ++ ((sankhyaSpan ds ++ NUM :: ds) ++ rest)
      = pre ++ SANKHYA_START :: ((writeUleb128 ds.length ++ padasOf ds.reverse)
          ++ (NUM :: (ds ++ rest))) := by
    rw [hre, sankhyaSpan_eq]
    simp
  have hlt : pre.length < (pre ++ ((sankhyaSpan ds ++ NUM :: ds) ++ rest)).length := by
    rw [hre1]
    exact length_boundary pre _ _
  have hgd : (pre ++ ((sankhyaSpan ds ++ NUM :: ds) ++ rest)).getD pre.length 0
      = SANKHYA_START := by
    rw [hre1]
    exact getD_boundary pre _ _
  have hsan : decodeSankhya (pre ++ ((sankhyaSpan ds ++ NUM :: ds) ++ rest)) pre.length
      = .ok (ds, (sankhyaSpan ds).length) := by
    rw [hre]
    exact decodeSankhya_enc ds h10 hlen pre (NUM :: (ds ++ rest))
  have hre2 : pre ++ ((sankhyaSpan ds ++ NUM :: ds) ++ rest)
      = (pre ++ sankhyaSpan ds) ++ (NUM :: (ds ++ rest)) := by simp
  have hpl : pre.length + (sankhyaSpan ds).length = (pre ++ sankhyaSpan ds).length := by simp
  have hgd2 : (pre ++ ((sankhyaSpan ds ++ NUM :: ds) ++ rest)).getD
      (pre.length + (sankhyaSpan ds).length) 0 = NUM := by
    rw [hre2, hpl]
    exact getD_boundary _ _ _
  have hlt2 : pre.length + (sankhyaSpan ds).length
      < (pre ++ ((sankhyaSpan ds ++ NUM :: ds) ++ rest)).length := by
    rw [hre2, hpl]
    exact length_boundary _ _ _
  have hnum : decodeNum (pre ++ ((sankhyaSpan ds ++ NUM :: ds) ++ rest))
      (pre.length + (sankhyaSpan ds).length) = .ok (ds, 1 + ds.length) := by
    rw [hre2, hpl]
    exact decodeNum_enc ds (fun d hd => Nat.lt_trans (h10 d hd) (by norm_num))
      (pre ++ sankhyaSpan ds) rest hrest
  rw [decodeIastAux_step _ _ _ hlt, hgd]
  rw [if_pos (by decide), if_neg (by decide), if_neg (by decide), if_pos rfl, hsan]
  show (if pre.length + (sankhyaSpan ds).length
        < (pre ++ ((sankhyaSpan ds ++ NUM :: ds) ++ rest)).length
      ∧ (pre ++ ((sankhyaSpan ds ++ NUM :: ds) ++ rest)).getD
        (pre.length + (sankhyaSpan ds).length) 0 = NUM then _ else _) = _
  rw [if_pos ⟨hlt2, hgd2⟩, hnum]

theorem renderToks_cons (t : Token) (ts : List Token) :
    renderToks (t :: ts) = renderTok t ++ renderToks ts := rfl

theorem tokensToBytesAux_cons (t : Token) (ts : List Token) (ip : Bool) :
    tokensToBytesAux (t :: ts) ip = segBytes t ip ++ tokensToBytesAux ts (nextPada t ip) := rfl

theorem decodeIastAux_end (data : List Nat) (fuel i : Nat) (h : ¬ i < data.length) :
    decodeIastAux data fuel i = .ok [] := by
  match fuel with
  | 0 =>
    rw [show decodeIastAux data 0 i
      = if i < data.length then Except.error DErr.fuel else .ok [] from rfl, if_neg h]
  | f + 1 =>
    rw [show decodeIastAux data (f + 1) i
      = if i < data.length then _ else .ok [] from rfl, if_neg h]

theorem decIast_skip_prefix (copt : List Nat)
    (hc : copt = [] ∨ copt = [PADA_START] ∨ copt = [PADA_END])
    (pre rest : List Nat) (fuel : Nat)
    (hb : (pre ++ (copt ++ rest)).length < fuel + pre.length) :
    ∃ f, fuel = f + copt.length ∧
      decodeIastAux (pre ++ (copt ++ rest)) fuel pre.length
        = decodeIastAux ((pre ++ copt) ++ rest) f (pre ++ copt).length ∧
      ((pre ++ copt) ++ rest).length < f + (pre ++ copt).length := by
  rcases hc with rfl | rfl | rfl
  · refine ⟨fuel, by simp, ?_, ?_⟩
    · simp
    · simpa using hb
  · have hf : 1 ≤ fuel := by
      simp at hb
      omega
    obtain ⟨f, rfl⟩ : ∃ f, fuel = f + 1 := ⟨fuel - 1, by omega⟩
    refine ⟨f, by simp, ?_, ?_⟩
    · have h1 : decodeIastAux (pre ++ ([PADA_START] ++ rest)) (f + 1) pre.length
          = decodeIastAux (pre ++ ([PADA_START] ++ rest)) f (pre.length + 1) :=
        decIast_structural (by left; rfl) pre rest f
      rw [h1]
      have he : pre ++ ([PADA_START] ++ rest) = (pre ++ [PADA_START]) ++ rest := by simp
      have he2 : pre.length + 1 = (pre ++ [PADA_START]).length := by simp
      rw [he, he2]
    · simp at hb ⊢
      omega
  · have hf : 1 ≤ fuel := by
      simp at hb
      omega
    obtain ⟨f, rfl⟩ : ∃ f, fuel = f + 1 := ⟨fuel - 1, by omega⟩
    refine ⟨f, by simp, ?_, ?_⟩
    · have h1 : decodeIastAux (pre ++ ([PADA_END] ++ rest)) (f + 1) pre.length
          = decodeIastAux (pre ++ ([PADA_END] ++ rest)) f (pre.length + 1) :=
        decIast_structural (by right; left; rfl) pre rest f
      rw [h1]
      have he : pre ++ ([PADA_END] ++ rest) = (pre ++ [PADA_END]) ++ rest := by simp
      have he2 : pre.length + 1 = (pre ++ [PADA_END]).length := by simp
      rw [he, he2]
    · simp at hb ⊢
      omega

theorem tokensToBytesAux_false_boundary (ts : List Token)
    (h : ∀ rest, ts ≠ Token.danda :: rest) :
    tokensToBytesAux ts false = []
      ∨ ∃ b r, tokensToBytesAux ts false = b :: r ∧ 0x10 ≤ b := by
  match ts with
  | [] => left; rfl
  | .svara b :: ts => right; exact ⟨PADA_START, _, rfl, by decide⟩
  | .vyanjana b :: ts => right; exact ⟨PADA_START, _, rfl, by decide⟩
  | .space :: ts => right; exact ⟨SPACE, _, rfl, by decide⟩
  | .danda :: ts => exact absurd rfl (h ts)
  | .doubleDanda :: ts => right; exact ⟨DOUBLE_DANDA, _, rfl, by decide⟩
  | .avagraha :: ts => right; exact ⟨PADA_START, _, rfl, by decide⟩
  | .numeral s :: ts => right; exact ⟨SANKHYA_START, _, rfl, by decide⟩

theorem wfToks_numeral_cons {s : List Char} {ts : List Token}
    (h : wfToks (Token.numeral s :: ts) = true) :
    wfToks ts = true ∧ ∀ r, ts ≠ Token.danda :: r := by
  match ts with
  | [] => exact ⟨rfl, by simp⟩
  | .danda :: r =>
    rw [show wfToks (Token.numeral s :: Token.danda :: r) = false from rfl] at h
    exact absurd h (by simp)
  | .svara b :: r => exact ⟨h, fun r' hc => by simp at hc⟩
  | .vyanjana b :: r => exact ⟨h, fun r' hc => by simp at hc⟩
  | .space :: r => exact ⟨h, fun r' hc => by simp at hc⟩
  | .doubleDanda :: r => exact ⟨h, fun r' hc => by simp at hc⟩
  | .avagraha :: r => exact ⟨h, fun r' hc => by simp at hc⟩
  | .numeral s' :: r => exact ⟨h, fun r' hc => by simp at hc⟩

theorem wfToks_cons_nonnumeral {t : Token} {ts : List Token}
    (hnn : ∀ s, t ≠ Token.numeral s) (h : wfToks (t :: ts) = true) : wfToks ts = true := by
  match t with
  | .numeral s => exact absurd rfl (hnn s)
  | .svara b => exact h
  | .vyanjana b => exact h
  | .space => exact h
  | .danda => exact h
  | .doubleDanda => exact h
  | .avagraha => exact h

theorem decode_core_emit {b : Nat} {piece tailRender : List Char}
    (hstep : ∀ (p2 r2 : List Nat) (f2 : Nat),
      decodeIastAux (p2 ++ b :: r2) (f2 + 1) p2.length
        = (decodeIastAux (p2 ++ b :: r2) f2 (p2.length + 1)).map (fun r => piece ++ r))
    (pre1 rest : List Nat) (f : Nat)
    (hb : (pre1 ++ (b :: rest)).length < f + pre1.length)
    (hcont : ∀ (f3 : Nat), ((pre1 ++ [b]) ++ rest).length < f3 + (pre1 ++ [b]).length →
      decodeIastAux ((pre1 ++ [b]) ++ rest) f3 (pre1 ++ [b]).length = .ok tailRender) :
    decodeIastAux (pre1 ++ (b :: rest)) f pre1.length = .ok (piece ++ tailRender) := by
  have hf1 : 1 ≤ f := by
    simp at hb
    omega
  obtain ⟨f2, rfl⟩ : ∃ f2, f = f2 + 1 := ⟨f - 1, by omega⟩
  rw [hstep pre1 rest f2]
  have he1 : pre1 ++ b :: rest = (pre1 ++ [b]) ++ rest := by simp
  have he2 : pre1.length + 1 = (pre1 ++ [b]).length := by simp
  rw [he1, he2, hcont f2 (by simp at hb ⊢; omega)]
  rfl

/-- Decoding the encoder's byte stream for a well-formed token list,
starting right after an arbitrary prefix, prints exactly the tokens'
rendering.  `wfToks` excludes a numeral directly before a daṇḍa (C1's
counterexample shape); numerals are bounded by the u32 range of the
SAṄKHYĀ count field. -/
theorem decode_tokens :
    ∀ (ts : List Token), (∀ t ∈ ts, tokValid t = true) → wfToks ts = true →
      (∀ s, Token.numeral s ∈ ts → s.length ≤ 0xFFFFFFFF) →
    ∀ (inPada : Bool) (pre : List Nat) (fuel : Nat),
      (pre ++ tokensToBytesAux ts inPada).length < fuel + pre.length →
      decodeIastAux (pre ++ tokensToBytesAux ts inPada) fuel pre.length = .ok (renderToks ts)
  | [], _, _, _, ip, pre, fuel, hb => by
    cases ip with
    | false =>
      rw [show tokensToBytesAux [] false = ([] : List Nat) from rfl, List.append_nil]
      exact decodeIastAux_end pre fuel pre.length (by omega)
    | true =>
      rw [show tokensToBytesAux [] true = [PADA_END] from rfl] at hb ⊢
      have hf1 : 1 ≤ fuel := by
        simp at hb
        omega
      obtain ⟨f, rfl⟩ : ∃ f, fuel = f + 1 := ⟨fuel - 1, by omega⟩
      rw [show pre ++ [PADA_END] = pre ++ PADA_END :: [] from rfl,
        decIast_structural (by right; left; rfl) pre [] f]
      exact decodeIastAux_end _ f (pre.length + 1) (by simp)
  | .svara b :: ts, hvalid, hwf, hnum, ip, pre, fuel, hb => by
    have hbv : isSvara b = true := by
      have h := hvalid (Token.svara b) (by simp)
      simpa [tokValid] using h
    have hseg : tokensToBytesAux (Token.svara b :: ts) ip
        = (if ip then ([] : List Nat) else [PADA_START])
          ++ ([b] ++ tokensToBytesAux ts true) := by
      rw [tokensToBytesAux_cons,
        show segBytes (Token.svara b) ip
          = (if ip then ([] : List Nat) else [PADA_START]) ++ [b] from by cases ip <;> rfl,
        show nextPada (Token.svara b) ip = true from by cases ip <;> rfl]
      simp
    rw [hseg] at hb ⊢
    obtain ⟨f, hfeq, hrw, hb2⟩ := decIast_skip_prefix _ (by cases ip <;> simp) pre
      ([b] ++ tokensToBytesAux ts true) fuel hb
    rw [hrw, renderToks_cons]
    exact decode_core_emit (fun p2 r2 f2 => decIast_svara hbv p2 r2 f2)
      (pre ++ (if ip then ([] : List Nat) else [PADA_START])) (tokensToBytesAux ts true) f hb2
      (fun f3 hb3 => decode_tokens ts (fun t ht => hvalid t (by simp [ht]))
        (wfToks_cons_nonnumeral (by simp) hwf)
        (fun s hs => hnum s (by simp [hs])) true _ f3 hb3)
  | .vyanjana b :: ts, hvalid, hwf, hnum, ip, pre, fuel, hb => by
    have hbv : isVyanjana b = true := by
      have h := hvalid (Token.vyanjana b) (by simp)
      simpa [tokValid] using h
    have hseg : tokensToBytesAux (Token.vyanjana b :: ts) ip
        = (if ip then ([] : List Nat) else [PADA_START])
          ++ ([b] ++ tokensToBytesAux ts true) := by
      rw [tokensToBytesAux_cons,
        show segBytes (Token.vyanjana b) ip
          = (if ip then ([] : List Nat) else [PADA_START]) ++ [b] from by cases ip <;> rfl,
        show nextPada (Token.vyanjana b) ip = true from by cases ip <;> rfl]
      simp
    rw [hseg] at hb ⊢
    obtain ⟨f, hfeq, hrw, hb2⟩ := decIast_skip_prefix _ (by cases ip <;> simp) pre
      ([b] ++ tokensToBytesAux ts true) fuel hb
    rw [hrw, renderToks_cons]
    exact decode_core_emit (fun p2 r2 f2 => decIast_vyanjana hbv p2 r2 f2)
      (pre ++ (if ip then ([] : List Nat) else [PADA_START])) (tokensToBytesAux ts true) f hb2
      (fun f3 hb3 => decode_tokens ts (fun t ht => hvalid t (by simp [ht]))
        (wfToks_cons_nonnumeral (by simp) hwf)
        (fun s hs => hnum s (by simp [hs])) true _ f3 hb3)
  | .avagraha :: ts, hvalid, hwf, hnum, ip, pre, fuel, hb => by
    have hseg : tokensToBytesAux (Token.avagraha :: ts) ip
        = (if ip then ([] : List Nat) else [PADA_START])
          ++ ([AVAGRAHA] ++ tokensToBytesAux ts true) := by
      rw [tokensToBytesAux_cons,
        show segBytes Token.avagraha ip
          = (if ip then ([] : List Nat) else [PADA_START]) ++ [AVAGRAHA] from by
            cases ip <;> rfl,
        show nextPada Token.avagraha ip = true from by cases ip <;> rfl]
      simp
    rw [hseg] at hb ⊢
    obtain ⟨f, hfeq, hrw, hb2⟩ := decIast_skip_prefix _ (by cases ip <;> simp) pre
      ([AVAGRAHA] ++ tokensToBytesAux ts true) fuel hb
    rw [hrw, renderToks_cons]
    exact decode_core_emit
      (fun p2 r2 f2 => decIast_lipi (by decide) (by decide) p2 r2 f2)
      (pre ++ (if ip then ([] : List Nat) else [PADA_START])) (tokensToBytesAux ts true) f hb2
      (fun f3 hb3 => decode_tokens ts (fun t ht => hvalid t (by simp [ht]))
        (wfToks_cons_nonnumeral (by simp) hwf)
        (fun s hs => hnum s (by simp [hs])) true _ f3 hb3)
  | .space :: ts, hvalid, hwf, hnum, ip, pre, fuel, hb => by
    have hseg : tokensToBytesAux (Token.space :: ts) ip
        = (if ip then [PADA_END] else ([] : List Nat))
          ++ ([SPACE] ++ tokensToBytesAux ts false) := by
      rw [tokensToBytesAux_cons,
        show segBytes Token.space ip
          = (if ip then [PADA_END] else ([] : List Nat)) ++ [SPACE] from by cases ip <;> rfl,
        show nextPada Token.space ip = false from by cases ip <;> rfl]
      simp
    rw [hseg] at hb ⊢
    obtain ⟨f, hfeq, hrw, hb2⟩ := decIast_skip_prefix _ (by cases ip <;> simp) pre
      ([SPACE] ++ tokensToBytesAux ts false) fuel hb
    rw [hrw, renderToks_cons]
    exact decode_core_emit
      (fun p2 r2 f2 => decIast_lipi (by decide) (by decide) p2 r2 f2)
      (pre ++ (if ip then [PADA_END] else ([] : List Nat))) (tokensToBytesAux ts false) f hb2
      (fun f3 hb3 => decode_tokens ts (fun t ht => hvalid t (by simp [ht]))
        (wfToks_cons_nonnumeral (by simp) hwf)
        (fun s hs => hnum s (by simp [hs])) false _ f3 hb3)
  | .danda :: ts, hvalid, hwf, hnum, ip, pre, fuel, hb => by
    have hseg : tokensToBytesAux (Token.danda :: ts) ip
        = (if ip then [PADA_END] else ([] : List Nat))
          ++ ([DANDA] ++ tokensToBytesAux ts false) := by
      rw [tokensToBytesAux_cons,
        show segBytes Token.danda ip
          = (if ip then [PADA_END] else ([] : List Nat)) ++ [DANDA] from by cases ip <;> rfl,
        show nextPada Token.danda ip = false from by cases ip <;> rfl]
      simp
    rw [hseg] at hb ⊢
    obtain ⟨f, hfeq, hrw, hb2⟩ := decIast_skip_prefix _ (by cases ip <;> simp) pre
      ([DANDA] ++ tokensToBytesAux ts false) fuel hb
    rw [hrw, renderToks_cons]
    exact decode_core_emit
      (fun p2 r2 f2 => decIast_lipi (by decide) (by decide) p2 r2 f2)
      (pre ++ (if ip then [PADA_END] else ([] : List Nat))) (tokensToBytesAux ts false) f hb2
      (fun f3 hb3 => decode_tokens ts (fun t ht => hvalid t (by simp [ht]))
        (wfToks_cons_nonnumeral (by simp) hwf)
        (fun s hs => hnum s (by simp [hs])) false _ f3 hb3)
  | .doubleDanda :: ts, hvalid, hwf, hnum, ip, pre, fuel, hb => by
    have hseg : tokensToBytesAux (Token.doubleDanda :: ts) ip
        = (if ip then [PADA_END] else ([] : List Nat))
          ++ ([DOUBLE_DANDA] ++ tokensToBytesAux ts false) := by
      rw [tokensToBytesAux_cons,
        show segBytes Token.doubleDanda ip
          = (if ip then [PADA_END] else ([] : List Nat)) ++ [DOUBLE_DANDA] from by
            cases ip <;> rfl,
        show nextPada Token.doubleDanda ip = false from by cases ip <;> rfl]
      simp
    rw [hseg] at hb ⊢
    obtain ⟨f, hfeq, hrw, hb2⟩ := decIast_skip_prefix _ (by cases ip <;> simp) pre
      ([DOUBLE_DANDA] ++ tokensToBytesAux ts false) fuel hb
    rw [hrw, renderToks_cons]
    exact decode_core_emit
      (fun p2 r2 f2 => decIast_lipi (by decide) (by decide) p2 r2 f2)
      (pre ++ (if ip then [PADA_END] else ([] : List Nat))) (tokensToBytesAux ts false) f hb2
      (fun f3 hb3 => decode_tokens ts (fun t ht => hvalid t (by simp [ht]))
        (wfToks_cons_nonnumeral (by simp) hwf)
        (fun s hs => hnum s (by simp [hs])) false _ f3 hb3)
  | .numeral dg :: ts, hvalid, hwf, hnum, ip, pre, fuel, hb => by
    have hall : dg.all Char.isDigit = true := by
      have h := hvalid (Token.numeral dg) (by simp)
      simpa [tokValid] using h
    have h10 : ∀ d ∈ dg.map charToDigit, d < 10 := by
      intro d hd
      simp at hd
      obtain ⟨c, hc, rfl⟩ := hd
      exact charToDigit_lt_10 (List.all_eq_true.mp hall c hc)
    have hlen : (dg.map charToDigit).length ≤ 0xFFFFFFFF := by
      have h := hnum dg (by simp)
      simpa using h
    have hwf' := wfToks_numeral_cons hwf
    have hbound := tokensToBytesAux_false_boundary ts hwf'.2
    have hseg : tokensToBytesAux (Token.numeral dg :: ts) ip
        = (if ip then [PADA_END] else ([] : List Nat))
          ++ ((sankhyaSpan (dg.map charToDigit) ++ NUM :: dg.map charToDigit)
            ++ tokensToBytesAux ts false) := by
      rw [tokensToBytesAux_cons,
        show segBytes (Token.numeral dg) ip
          = (if ip then [PADA_END] else ([] : List Nat)) ++ encodeNumeral dg from by
            cases ip <;> rfl,
        show nextPada (Token.numeral dg) ip = false from by cases ip <;> rfl,
        encodeNumeral_eq dg]
      simp
    rw [hseg] at hb ⊢
    obtain ⟨f, hfeq, hrw, hb2⟩ := decIast_skip_prefix _ (by cases ip <;> simp) pre
      ((sankhyaSpan (dg.map charToDigit) ++ NUM :: dg.map charToDigit)
        ++ tokensToBytesAux ts false) fuel hb
    rw [hrw]
    have hf1 : 1 ≤ f := by
      rw [sankhyaSpan_eq] at hb2
      simp at hb2
      omega
    obtain ⟨f2, rfl⟩ : ∃ f2, f = f2 + 1 := ⟨f - 1, by omega⟩
    rw [decIast_numeral (dg.map charToDigit) h10 hlen
      (pre ++ (if ip then [PADA_END] else ([] : List Nat))) (tokensToBytesAux ts false) f2 hbound]
    have hre : (pre ++ (if ip then [PADA_END] else ([] : List Nat)))
          ++ ((sankhyaSpan (dg.map charToDigit) ++ NUM :: dg.map charToDigit)
            ++ tokensToBytesAux ts false)
        = ((pre ++ (if ip then [PADA_END] else ([] : List Nat)))
            ++ (sankhyaSpan (dg.map charToDigit) ++ NUM :: dg.map charToDigit))
          ++ tokensToBytesAux ts false := by simp
    have hpos : (pre ++ (if ip then [PADA_END] else ([] : List Nat))).length
          + (sankhyaSpan (dg.map charToDigit)).length + (1 + (dg.map charToDigit).length)
        = ((pre ++ (if ip then [PADA_END] else ([] : List Nat)))
            ++ (sankhyaSpan (dg.map charToDigit) ++ NUM :: dg.map charToDigit)).length := by
      simp
      omega
    rw [hre, hpos]
    rw [decode_tokens ts (fun t ht => hvalid t (by simp [ht])) hwf'.1
      (fun s hs => hnum s (by simp [hs])) false _ f2
      (by rw [sankhyaSpan_eq] at hb2 ⊢; simp at hb2 ⊢; omega)]
    rw [renderToks_cons]
    rfl

theorem matchSingle_spec (c : Char) (t : Token) (h : matchSingle c = some t) :
    renderTok t = [c] ∧ tokValid t = true ∧ t ≠ Token.space ∧ (∀ s, t ≠ Token.numeral s) := by
  unfold matchSingle at h
  split at h
  all_goals first
    | (injection h with h2
       subst h2
       exact ⟨by decide, by decide, by decide, by intro s hc; cases hc⟩)
    | exact absurd h (by simp)

theorem aspirate_spec (c : Char) (b : Nat) (h : aspirate c = some b) :
    byteToIast b = [c, 'h'] ∧ isVyanjana b = true := by
  unfold aspirate at h
  split at h
  all_goals first
    | (injection h with h2
       subst h2
       exact ⟨by decide, by decide⟩)
    | exact absurd h (by simp)

theorem canonical_head {c : Char} {rest : List Char}
    (h : canonicalChars (c :: rest) = true) : allowedChar c = true := by
  match rest with
  | [] => simpa [canonicalChars] using h
  | c2 :: r =>
    rw [show canonicalChars (c :: c2 :: r)
        = (allowedChar c && !(c = ' ' && c2 = ' ')
          && !(c.isDigit && c2 = '|' && r.head? ≠ some '|')
          && canonicalChars (c2 :: r)) from rfl] at h
    simp at h
    exact h.1.1.1

theorem canonical_tail {c : Char} {rest : List Char}
    (h : canonicalChars (c :: rest) = true) : canonicalChars rest = true := by
  match rest with
  | [] => rfl
  | c2 :: r =>
    rw [show canonicalChars (c :: c2 :: r)
        = (allowedChar c && !(c = ' ' && c2 = ' ')
          && !(c.isDigit && c2 = '|' && r.head? ≠ some '|')
          && canonicalChars (c2 :: r)) from rfl] at h
    simp at h
    exact h.2

theorem canonical_no_double_space {rest : List Char}
    (h : canonicalChars (' ' :: rest) = true) : rest.head? ≠ some ' ' := by
  match rest with
  | [] => simp
  | c2 :: r =>
    rw [show canonicalChars (' ' :: c2 :: r)
        = (allowedChar ' ' && !(' ' = ' ' && c2 = ' ')
          && !((' ').isDigit && c2 = '|' && r.head? ≠ some '|')
          && canonicalChars (c2 :: r)) from rfl] at h
    simp at h
    simpa using h.1.2

theorem canonical_digit_bar {c : Char} {rest : List Char}
    (h : canonicalChars (c :: rest) = true) (hd : c.isDigit = true) :
    ¬(rest.head? = some '|' ∧ rest.tail.head? ≠ some '|') := by
  match rest with
  | [] => simp
  | c2 :: r =>
    rw [show canonicalChars (c :: c2 :: r)
        = (allowedChar c && !(c = ' ' && c2 = ' ')
          && !(c.isDigit && c2 = '|' && r.head? ≠ some '|')
          && canonicalChars (c2 :: r)) from rfl] at h
    simp at h
    intro hcon
    simp at hcon
    rcases h.1.2 with (hc | hc) | hc
    · rw [hd] at hc
      simp at hc
    · exact hc hcon.1
    · exact absurd hc (by simpa using hcon.2)

theorem canonical_dropWhile (p : Char → Bool) :
    ∀ (cs : List Char), canonicalChars cs = true →
      canonicalChars (cs.dropWhile p) = true
  | [], h => h
  | c :: rest, h => by
    by_cases hp : p c
    · rw [List.dropWhile_cons_of_pos hp]
      exact canonical_dropWhile p rest (canonical_tail h)
    · rw [List.dropWhile_cons_of_neg hp]
      exact h

theorem canonical_run_no_bar :
    ∀ (c : Char) (rest : List Char), c.isDigit = true →
      canonicalChars (c :: rest) = true →
      ¬((rest.dropWhile Char.isDigit).head? = some '|'
        ∧ (rest.dropWhile Char.isDigit).tail.head? ≠ some '|')
  | c, [], _, _ => by simp
  | c, c2 :: r, hd, h => by
    by_cases h2 : c2.isDigit
    · rw [List.dropWhile_cons_of_pos h2]
      exact canonical_run_no_bar c2 r h2 (canonical_tail h)
    · rw [List.dropWhile_cons_of_neg h2]
      exact canonical_digit_bar h hd

theorem mem_takeWhile_sat (p : Char → Bool) :
    ∀ (l : List Char) (x : Char), x ∈ l.takeWhile p → p x = true
  | [], x, hx => by simp [List.takeWhile] at hx
  | c :: rest, x, hx => by
    by_cases hp : p c
    · rw [List.takeWhile_cons_of_pos hp] at hx
      rcases List.mem_cons.mp hx with rfl | hx2
      · exact hp
      · exact mem_takeWhile_sat p rest x hx2
    · rw [List.takeWhile_cons_of_neg hp] at hx
      simp at hx

theorem dropWhile_length_le (p : Char → Bool) :
    ∀ (l : List Char), (l.dropWhile p).length ≤ l.length
  | [] => by simp
  | c :: rest => by
    by_cases h : p c
    · rw [List.dropWhile_cons_of_pos h]
      exact Nat.le_trans (dropWhile_length_le p rest) (by simp)
    · rw [List.dropWhile_cons_of_neg h]

theorem wfToks_cons_intro_nonnum {t : Token} {ts : List Token}
    (hnn : ∀ s, t ≠ Token.numeral s) (h : wfToks ts = true) : wfToks (t :: ts) = true := by
  match t with
  | .numeral s => exact absurd rfl (hnn s)
  | .svara b => exact h
  | .vyanjana b => exact h
  | .space => exact h
  | .danda => exact h
  | .doubleDanda => exact h
  | .avagraha => exact h

theorem wfToks_cons_intro_num {s : List Char} {ts : List Token}
    (hd : ∀ r, ts ≠ Token.danda :: r) (h : wfToks ts = true) :
    wfToks (Token.numeral s :: ts) = true := by
  match ts with
  | [] => rfl
  | .danda :: r => exact absurd rfl (hd r)
  | .svara b :: r => exact h
  | .vyanjana b :: r => exact h
  | .space :: r => exact h
  | .doubleDanda :: r => exact h
  | .avagraha :: r => exact h
  | .numeral s2 :: r => exact h

theorem allowed_matchSingle {c : Char} (h : allowedChar c = true) (h1 : ¬ c = ' ')
    (h2 : ¬ c = '|') (h3 : ¬ c = '\'') (h4 : ¬ c.isDigit = true) :
    ∃ t, matchSingle c = some t := by
  simp [allowedChar, h1, h2, h3, h4] at h
  exact Option.isSome_iff_exists.mp h

theorem tokenizeAux_cons (c : Char) (rest : List Char) (fuel pos : Nat) (acc : List Token) :
    tokenizeAux (c :: rest) (fuel + 1) pos acc
      = (if c = '\r' then tokenizeAux rest fuel (pos + 1) acc
        else if c = ' ' ∨ c = '\t' ∨ c = '\n' then
          if acc.head? = some Token.space then tokenizeAux rest fuel (pos + 1) acc
          else tokenizeAux rest fuel (pos + 1) (Token.space :: acc)
        else if c = '|' ∧ rest.head? = some '|' then
          tokenizeAux rest.tail fuel (pos + 2) (Token.doubleDanda :: acc)
        else if c = '|' then tokenizeAux rest fuel (pos + 1) (Token.danda :: acc)
        else if c = '\'' ∨ c = 'ऽ' then
          tokenizeAux rest fuel (pos + 1) (Token.avagraha :: acc)
        else if c.isDigit then
          tokenizeAux (rest.dropWhile Char.isDigit) fuel
            (pos + (c :: rest.takeWhile Char.isDigit).length)
            (Token.numeral (c :: rest.takeWhile Char.isDigit) :: acc)
        else if c = 'a' ∧ rest.head? = some 'i' then
          tokenizeAux rest.tail fuel (pos + 2) (Token.svara 0x86 :: acc)
        else if c = 'a' ∧ rest.head? = some 'u' then
          tokenizeAux rest.tail fuel (pos + 2) (Token.svara 0x8A :: acc)
        else if rest.head? = some 'h' ∧ (aspirate c).isSome then
          tokenizeAux rest.tail fuel (pos + 2) (Token.vyanjana ((aspirate c).getD 0) :: acc)
        else
          match matchSingle c with
          | some t => tokenizeAux rest fuel (pos + 1) (t :: acc)
          | none =>
            .error ("unrecognized IAST character '" ++ toString c ++ "' (U+"
              ++ toString c.toNat ++ ") at position " ++ toString pos)) := rfl

theorem tokenizeAux_spec :
    ∀ (fuel : Nat) (cs : List Char) (pos : Nat) (acc : List Token),
      canonicalChars cs = true →
      cs.length < fuel →
      (acc.head? = some Token.space → cs.head? ≠ some ' ') →
      (∀ s, acc.head? = some (Token.numeral s) →
        ¬(cs.head? = some '|' ∧ cs.tail.head? ≠ some '|')) →
      ∃ ts, tokenizeAux cs fuel pos acc = .ok (acc.reverse ++ ts)
        ∧ renderToks ts = cs
        ∧ (∀ t ∈ ts, tokValid t = true)
        ∧ wfToks ts = true
        ∧ (∀ s r, acc.head? = some (Token.numeral s) → ts ≠ Token.danda :: r)
  | fuel, [], pos, acc, _, _, _, _ =>
    ⟨[], by rw [List.append_nil]; cases fuel with | zero => rfl | succ f => rfl,
      rfl, by simp, rfl, by intro s r _ h; cases h⟩
  | 0, c :: rest, pos, acc, _, hlen, _, _ => by
    rw [List.length_cons] at hlen
    omega
  | fuel + 1, c :: rest, pos, acc, hcan, hlen, hsp, hnum => by
    have hal : allowedChar c = true := canonical_head hcan
    have hct : canonicalChars rest = true := canonical_tail hcan
    have hlen' : rest.length < fuel := by rw [List.length_cons] at hlen; omega
    rw [tokenizeAux_cons]
    by_cases hr : c = '\r'
    · subst hr; exact absurd hal (by decide)
    rw [if_neg hr]
    by_cases hw : c = ' ' ∨ c = '\t' ∨ c = '\n'
    · have hc1 : c = ' ' := by
        rcases hw with h | h | h
        · exact h
        · subst h; exact absurd hal (by decide)
        · subst h; exact absurd hal (by decide)
      subst hc1
      rw [if_pos hw]
      have hin : ¬ acc.head? = some Token.space := fun hh => hsp hh rfl
      rw [if_neg hin]
      obtain ⟨ts, h1, h2, h3, h4, h5⟩ := tokenizeAux_spec fuel rest (pos + 1)
        (Token.space :: acc) hct hlen'
        (fun _ => canonical_no_double_space hcan)
        (by intro s hh; simp at hh)
      refine ⟨Token.space :: ts, ?_, ?_, ?_, ?_, ?_⟩
      · rw [h1]; simp
      · rw [renderToks_cons, h2]; rfl
      · intro t ht
        rcases List.mem_cons.mp ht with rfl | ht2
        · rfl
        · exact h3 t ht2
      · exact wfToks_cons_intro_nonnum (by intro s h; cases h) h4
      · intro s r _ heq; simp at heq
    rw [if_neg hw]
    by_cases hdd : c = '|' ∧ rest.head? = some '|'
    · obtain ⟨hc1, hc2⟩ := hdd
      subst hc1
      cases rest with
      | nil => simp at hc2
      | cons c2 r2 =>
        simp at hc2
        subst hc2
        rw [if_pos ⟨rfl, rfl⟩, List.tail_cons]
        obtain ⟨ts, h1, h2, h3, h4, h5⟩ := tokenizeAux_spec fuel r2 (pos + 2)
          (Token.doubleDanda :: acc) (canonical_tail hct)
          (by rw [List.length_cons] at hlen'; omega)
          (by intro hh; simp at hh)
          (by intro s hh; simp at hh)
        refine ⟨Token.doubleDanda :: ts, ?_, ?_, ?_, ?_, ?_⟩
        · rw [h1]; simp
        · rw [renderToks_cons, h2]; rfl
        · intro t ht
          rcases List.mem_cons.mp ht with rfl | ht2
          · rfl
          · exact h3 t ht2
        · exact wfToks_cons_intro_nonnum (by intro s h; cases h) h4
        · intro s r _ heq; simp at heq
    rw [if_neg hdd]
    by_cases hd1 : c = '|'
    · subst hd1
      rw [if_pos rfl]
      have hr2 : ¬ rest.head? = some '|' := fun hh => hdd ⟨rfl, hh⟩
      obtain ⟨ts, h1, h2, h3, h4, h5⟩ := tokenizeAux_spec fuel rest (pos + 1)
        (Token.danda :: acc) hct hlen'
        (by intro hh; simp at hh)
        (by intro s hh; simp at hh)
      refine ⟨Token.danda :: ts, ?_, ?_, ?_, ?_, ?_⟩
      · rw [h1]; simp
      · rw [renderToks_cons, h2]; rfl
      · intro t ht
        rcases List.mem_cons.mp ht with rfl | ht2
        · rfl
        · exact h3 t ht2
      · exact wfToks_cons_intro_nonnum (by intro s h; cases h) h4
      · intro s r hh _
        exact hnum s hh ⟨rfl, hr2⟩
    rw [if_neg hd1]
    by_cases hav : c = '\'' ∨ c = 'ऽ'
    · have hc1 : c = '\'' := by
        rcases hav with h | h
        · exact h
        · subst h; exact absurd hal (by decide)
      subst hc1
      rw [if_pos hav]
      obtain ⟨ts, h1, h2, h3, h4, h5⟩ := tokenizeAux_spec fuel rest (pos + 1)
        (Token.avagraha :: acc) hct hlen'
        (by intro hh; simp at hh)
        (by intro s hh; simp at hh)
      refine ⟨Token.avagraha :: ts, ?_, ?_, ?_, ?_, ?_⟩
      · rw [h1]; simp
      · rw [renderToks_cons, h2]; rfl
      · intro t ht
        rcases List.mem_cons.mp ht with rfl | ht2
        · rfl
        · exact h3 t ht2
      · exact wfToks_cons_intro_nonnum (by intro s h; cases h) h4
      · intro s r _ heq; simp at heq
    rw [if_neg hav]
    by_cases hdg : c.isDigit = true
    · rw [if_pos hdg]
      have hall : (c :: rest.takeWhile Char.isDigit).all Char.isDigit = true := by
        rw [List.all_cons, hdg, Bool.true_and, List.all_eq_true]
        intro x hx
        exact mem_takeWhile_sat Char.isDigit rest x hx
      obtain ⟨ts, h1, h2, h3, h4, h5⟩ := tokenizeAux_spec fuel (rest.dropWhile Char.isDigit)
        (pos + (c :: rest.takeWhile Char.isDigit).length)
        (Token.numeral (c :: rest.takeWhile Char.isDigit) :: acc)
        (canonical_dropWhile Char.isDigit rest hct)
        (by have := dropWhile_length_le Char.isDigit rest; omega)
        (by intro hh; simp at hh)
        (by intro s _; exact canonical_run_no_bar c rest hdg hcan)
      refine ⟨Token.numeral (c :: rest.takeWhile Char.isDigit) :: ts, ?_, ?_, ?_, ?_, ?_⟩
      · rw [h1]; simp
      · rw [renderToks_cons, h2,
          show renderTok (Token.numeral (c :: rest.takeWhile Char.isDigit))
            = c :: rest.takeWhile Char.isDigit from render_digits hall,
          List.cons_append, List.takeWhile_append_dropWhile]
      · intro t ht
        rcases List.mem_cons.mp ht with rfl | ht2
        · exact hall
        · exact h3 t ht2
      · exact wfToks_cons_intro_num (fun r => h5 _ r rfl) h4
      · intro s r _ heq; simp at heq
    rw [if_neg hdg]
    by_cases hai : c = 'a' ∧ rest.head? = some 'i'
    · obtain ⟨hc1, hc2⟩ := hai
      subst hc1
      cases rest with
      | nil => simp at hc2
      | cons c2 r2 =>
        simp at hc2
        subst hc2
        rw [if_pos ⟨rfl, rfl⟩, List.tail_cons]
        obtain ⟨ts, h1, h2, h3, h4, h5⟩ := tokenizeAux_spec fuel r2 (pos + 2)
          (Token.svara 0x86 :: acc) (canonical_tail hct)
          (by rw [List.length_cons] at hlen'; omega)
          (by intro hh; simp at hh)
          (by intro s hh; simp at hh)
        refine ⟨Token.svara 0x86 :: ts, ?_, ?_, ?_, ?_, ?_⟩
        · rw [h1]; simp
        · rw [renderToks_cons, h2]; rfl
        · intro t ht
          rcases List.mem_cons.mp ht with rfl | ht2
          · rfl
          · exact h3 t ht2
        · exact wfToks_cons_intro_nonnum (by intro s h; cases h) h4
        · intro s r _ heq; simp at heq
    rw [if_neg hai]
    by_cases hau : c = 'a' ∧ rest.head? = some 'u'
    · obtain ⟨hc1, hc2⟩ := hau
      subst hc1
      cases rest with
      | nil => simp at hc2
      | cons c2 r2 =>
        simp at hc2
        subst hc2
        rw [if_pos ⟨rfl, rfl⟩, List.tail_cons]
        obtain ⟨ts, h1, h2, h3, h4, h5⟩ := tokenizeAux_spec fuel r2 (pos + 2)
          (Token.svara 0x8A :: acc) (canonical_tail hct)
          (by rw [List.length_cons] at hlen'; omega)
          (by intro hh; simp at hh)
          (by intro s hh; simp at hh)
        refine ⟨Token.svara 0x8A :: ts, ?_, ?_, ?_, ?_, ?_⟩
        · rw [h1]; simp
        · rw [renderToks_cons, h2]; rfl
        · intro t ht
          rcases List.mem_cons.mp ht with rfl | ht2
          · rfl
          · exact h3 t ht2
        · exact wfToks_cons_intro_nonnum (by intro s h; cases h) h4
        · intro s r _ heq; simp at heq
    rw [if_neg hau]
    by_cases hasp : rest.head? = some 'h' ∧ (aspirate c).isSome
    · obtain ⟨hc2, hb⟩ := hasp
      obtain ⟨b, hbb⟩ := Option.isSome_iff_exists.mp hb
      obtain ⟨hby1, hby2⟩ := aspirate_spec c b hbb
      cases rest with
      | nil => simp at hc2
      | cons c2 r2 =>
        simp at hc2
        subst hc2
        rw [if_pos ⟨rfl, hb⟩, List.tail_cons, hbb, Option.getD_some]
        obtain ⟨ts, h1, h2, h3, h4, h5⟩ := tokenizeAux_spec fuel r2 (pos + 2)
          (Token.vyanjana b :: acc) (canonical_tail hct)
          (by rw [List.length_cons] at hlen'; omega)
          (by intro hh; simp at hh)
          (by intro s hh; simp at hh)
        refine ⟨Token.vyanjana b :: ts, ?_, ?_, ?_, ?_, ?_⟩
        · rw [h1]; simp
        · rw [renderToks_cons, h2,
            show renderTok (Token.vyanjana b) = byteToIast b from rfl, hby1]
          rfl
        · intro t ht
          rcases List.mem_cons.mp ht with rfl | ht2
          · exact hby2
          · exact h3 t ht2
        · exact wfToks_cons_intro_nonnum (by intro s h; cases h) h4
        · intro s r _ heq; simp at heq
    rw [if_neg hasp]
    have hc1 : ¬ c = ' ' := fun hh => hw (Or.inl hh)
    obtain ⟨t, hm⟩ := allowed_matchSingle hal hc1 hd1 (fun hh => hav (Or.inl hh)) hdg
    obtain ⟨hrend, hvalid, hnspace, hnnum⟩ := matchSingle_spec c t hm
    rw [hm]
    obtain ⟨ts, h1, h2, h3, h4, h5⟩ := tokenizeAux_spec fuel rest (pos + 1)
      (t :: acc) hct hlen'
      (fun hh => (hnspace (by simpa using hh)).elim)
      (fun s hh => (hnnum s (by simpa using hh)).elim)
    refine ⟨t :: ts, ?_, ?_, ?_, ?_, ?_⟩
    · show tokenizeAux rest fuel (pos + 1) (t :: acc) = _
      rw [h1]; simp
    · rw [renderToks_cons, h2, hrend]; rfl
    · intro t2 ht
      rcases List.mem_cons.mp ht with rfl | ht2
      · exact hvalid
      · exact h3 t2 ht2
    · exact wfToks_cons_intro_nonnum hnnum h4
    · intro s r _ heq
      injection heq with h6 h7
      subst h6
      have hcb : ['|'] = [c] := hrend
      exact hd1 (by injection hcb with h8 _; exact h8.symm)

theorem numeral_length_le : ∀ (ts : List Token) (s : List Char),
    Token.numeral s ∈ ts → s.length ≤ (renderToks ts).length
  | [], s, h => absurd h (by simp)
  | t :: ts, s, h => by
    rw [renderToks_cons, List.length_append]
    rcases List.mem_cons.mp h with h1 | h2
    · subst h1
      simp only [renderTok, List.length_map]
      omega
    · exact Nat.le_trans (numeral_length_le ts s h2) (Nat.le_add_left _ _)

end Slbc

namespace SlbcClaims
open Slbc

/-- C1 (amended): on canonical IAST strings — every character drawn from the
supported alphabet, whitespace appearing only as single ASCII spaces, the
avagraha written as the ASCII apostrophe, and no digit immediately followed
by a single daṇḍa — of length below `2^32`, decoding the encoding returns
the original string; in particular `"dharma"` encodes to
`26 1B 40 33 24 40 2E`, `"na ca"` encodes to `26 1C 40 2E 1F 26 08 40 2E`,
and both byte strings decode back to the original. -/
theorem iast_round_trip :
    (∀ cs : List Char, canonicalChars cs = true → cs.length < 2 ^ 32 →
      ∃ bytes, encodeIast cs = .ok bytes ∧ decodePhon bytes Script.iast = .ok cs)
    ∧ encodeIast "dharma".data = .ok [0x26, 0x1B, 0x40, 0x33, 0x24, 0x40, 0x2E]
    ∧ encodeIast "na ca".data = .ok [0x26, 0x1C, 0x40, 0x2E, 0x1F, 0x26, 0x08, 0x40, 0x2E]
    ∧ decodePhon [0x26, 0x1B, 0x40, 0x33, 0x24, 0x40, 0x2E] Script.iast = .ok "dharma".data
    ∧ decodePhon [0x26, 0x1C, 0x40, 0x2E, 0x1F, 0x26, 0x08, 0x40, 0x2E] Script.iast
        = .ok "na ca".data := by
  refine ⟨?_, by decide, by decide, by decide, by decide⟩
  intro cs hcan hlen
  obtain ⟨ts, h1, h2, h3, h4, h5⟩ := tokenizeAux_spec (cs.length + 1) cs 0 []
    hcan (by omega) (by intro hh; simp at hh) (by intro s hh; simp at hh)
  refine ⟨tokensToBytes ts, ?_, ?_⟩
  · show (tokenizeIast cs).map tokensToBytes = _
    rw [show tokenizeIast cs = tokenizeAux cs (cs.length + 1) 0 [] from rfl, h1]
    simp [Except.map]
  · have hnum : ∀ s, Token.numeral s ∈ ts → s.length ≤ 0xFFFFFFFF := by
      intro s hs
      have hle := numeral_length_le ts s hs
      rw [h2] at hle
      omega
    have hd := decode_tokens ts h3 h4 hnum false []
      ((tokensToBytesAux ts false).length + 1) (by simp)
    simp only [List.nil_append, List.length_nil] at hd
    show decodeToIast (tokensToBytes ts) = _
    rw [tokensToBytes_eq_aux]
    show decodeIastAux (tokensToBytesAux ts false)
      ((tokensToBytesAux ts false).length + 1) 0 = _
    rw [hd, h2]

/-- C1 witness: the round trip at the canonical string `"ka"`. -/
theorem iast_round_trip_witness :
    ∃ bytes, encodeIast "ka".data = .ok bytes
      ∧ decodePhon bytes Script.iast = .ok "ka".data :=
  iast_round_trip.1 "ka".data (by decide) (by decide)

/-- C1 counterexample to the unrestricted claim: the tab character is
accepted by the tokenizer (collapsed to a word boundary), but decoding
prints it back as a plain space, so `decode_phon (encode_iast "\t") ≠ "\t"`. -/
theorem round_trip_fails_on_tab :
    encodeIast ['\t'] = .ok [0x1F]
    ∧ decodePhon [0x1F] Script.iast = .ok [' ']
    ∧ ([' '] : List Char) ≠ ['\t'] :=
  ⟨by decide, by decide, by decide⟩

end SlbcClaims
